import Mathlib

/-
Verification of the minesweeper board state machine (src/game/minesweeper.py)
and the pattern-recognition agent (src/ai/pattern_agent.py).

The Python classes are shallowly embedded: the mutable `Minesweeper` object
becomes a `Board` record threaded through pure functions, Python ints become
`Int`, the nested lists `board` / `cell_states` become total functions on
`Int × Int` (the raw list indexing of the read accessors, including Python's
negative-index wrap-around and IndexError, is modelled separately by
`pyIndex`), and the Python `set` objects become `Finset (Int × Int)`.
`random.sample` is modelled by passing the sampled set as a parameter,
constrained exactly by the documented contract of `random.sample` (a subset
of the population of the requested size); `random.choice` is modelled by an
arbitrary index parameter reduced modulo the list length.  The recursive
flood fill `_reveal_recursive` is embedded with an explicit recursion-depth
budget (`fuel`); a budget of `rows*cols + 1` dominates the deepest possible
Python call stack, since every nested level of the recursion reveals one
more previously-Hidden cell.
-/

namespace Minesweeper

/-- CellState from src/game/minesweeper.py. -/
inductive CellState where
  | HIDDEN
  | REVEALED
  | FLAGGED
deriving DecidableEq, Repr

/-- GameState from src/game/minesweeper.py. -/
inductive GameState where
  | READY
  | PLAYING
  | WON
  | LOST
deriving DecidableEq, Repr

/-- The state of a `Minesweeper` instance (src/game/minesweeper.py, `__init__`). -/
structure Board where
  rows : Nat
  cols : Nat
  num_mines : Nat
  board : Int × Int → Int
  cell_states : Int × Int → CellState
  mines : Finset (Int × Int)
  game_state : GameState
  flags_placed : Int
  cells_revealed : Int
  first_click : Bool

/-- The eight neighbor offsets produced by the double loop
`for dr in [-1,0,1]: for dc in [-1,0,1]:` skipping `(0,0)`. -/
def offsets : List (Int × Int) :=
  [(-1,-1), (-1,0), (-1,1), (0,-1), (0,1), (1,-1), (1,0), (1,1)]

/-- The in-bounds neighbors of `(row, col)`, in offset order.  This is the
list built by `PatternAgent._get_neighbors`; `Minesweeper._get_neighbors`
returns the same cells as a set (see `get_neighbors`). -/
def neighborsList (rows cols : Nat) (row col : Int) : List (Int × Int) :=
  offsets.filterMap fun d =>
    let nr := row + d.1
    let nc := col + d.2
    if 0 ≤ nr ∧ nr < (rows : Int) ∧ 0 ≤ nc ∧ nc < (cols : Int) then some (nr, nc) else none

/-- `Minesweeper._get_neighbors`: the valid neighboring cells, as a set. -/
def get_neighbors (rows cols : Nat) (row col : Int) : Finset (Int × Int) :=
  (neighborsList rows cols row col).toFinset

/-- The set of all cells of the grid, `range(rows) × range(cols)`. -/
def gridCells (rows cols : Nat) : Finset (Int × Int) :=
  (Finset.range rows ×ˢ Finset.range cols).image fun p => ((p.1 : Int), (p.2 : Int))

/-- In-bounds predicate used by the guards in `reveal_cell`, `toggle_flag`
and `_reveal_recursive`: `0 <= row < self.rows and 0 <= col < self.cols`. -/
def inBounds (rows cols : Nat) (r c : Int) : Prop :=
  0 ≤ r ∧ r < (rows : Int) ∧ 0 ≤ c ∧ c < (cols : Int)

instance (rows cols : Nat) (r c : Int) : Decidable (inBounds rows cols r c) := by
  unfold inBounds; infer_instance

/-- Point update of a grid function (assignment `grid[r][c] = v`). -/
def setCell {α : Type} (f : Int × Int → α) (p : Int × Int) (v : α) : Int × Int → α :=
  fun q => if q = p then v else f q

/-- Number of in-bounds cells currently in state `s`. -/
def stateCount (b : Board) (s : CellState) : Nat :=
  ((gridCells b.rows b.cols).filter fun p => b.cell_states p = s).card

def hiddenCount (b : Board) : Nat := stateCount b CellState.HIDDEN

def revealedCount (b : Board) : Nat := stateCount b CellState.REVEALED

def flaggedCount (b : Board) : Nat := stateCount b CellState.FLAGGED

/-- Number of in-bounds Revealed cells that are not mines (the cells counted
by the `cells_revealed` counter, which is incremented only inside
`_reveal_recursive`, a function that never reveals mines). -/
def revealedNonMineCount (b : Board) : Nat :=
  ((gridCells b.rows b.cols).filter fun p => b.cell_states p = CellState.REVEALED ∧ p ∉ b.mines).card

/-- Number of in-bounds Revealed cells that are mines. -/
def revealedMineCount (b : Board) : Nat :=
  ((gridCells b.rows b.cols).filter fun p => b.cell_states p = CellState.REVEALED ∧ p ∈ b.mines).card

/-- `Minesweeper._count_adjacent_mines`: mines among the neighboring cells. -/
def count_adjacent_mines (mines : Finset (Int × Int)) (rows cols : Nat) (row col : Int) : Nat :=
  ((get_neighbors rows cols row col).filter fun p => p ∈ mines).card

/-- The excluded zone of `_generate_mines`: the first-clicked cell and its
neighbors. -/
def excluded_cells (rows cols : Nat) (exclude_row exclude_col : Int) : Finset (Int × Int) :=
  insert (exclude_row, exclude_col) (get_neighbors rows cols exclude_row exclude_col)

/-- The sampling pool of `_generate_mines`: all grid cells outside the
excluded zone. -/
def available_cells (rows cols : Nat) (exclude_row exclude_col : Int) : Finset (Int × Int) :=
  gridCells rows cols \ excluded_cells rows cols exclude_row exclude_col

/-- `Minesweeper._generate_mines`, with the result of
`random.sample(available_cells, num_mines)` passed in as `sample`:
install the mines and recompute the number of every non-mine grid cell. -/
def generate_mines (b : Board) (exclude_row exclude_col : Int)
    (sample : Finset (Int × Int)) : Board :=
  { b with
    mines := sample
    board := fun p =>
      if p ∈ gridCells b.rows b.cols ∧ p ∉ sample then
        (count_adjacent_mines sample b.rows b.cols p.1 p.2 : Int)
      else b.board p }

/-- `Minesweeper._reveal_recursive`, with an explicit recursion-depth budget.
Each level of nesting in the Python recursion corresponds to one unit of
`fuel`; `rows*cols + 1` units always suffice (see `flood_reveal`), because
every level that gets past the guards reveals a previously-Hidden cell. -/
def reveal_recursive : Nat → Board → Int → Int → Board
  | 0, b, _, _ => b
  | fuel + 1, b, row, col =>
    if ¬ inBounds b.rows b.cols row col then b
    else if b.cell_states (row, col) ≠ CellState.HIDDEN then b
    else if (row, col) ∈ b.mines then b
    else
      let b1 : Board :=
        { b with
          cell_states := setCell b.cell_states (row, col) CellState.REVEALED
          cells_revealed := b.cells_revealed + 1 }
      if b.board (row, col) = 0 then
        (neighborsList b.rows b.cols row col).foldl
          (fun bb p => reveal_recursive fuel bb p.1 p.2) b1
      else b1

/-- `_reveal_recursive` run with enough recursion budget for any board. -/
def flood_reveal (b : Board) (row col : Int) : Board :=
  reveal_recursive (b.rows * b.cols + 1) b row col

/-- The tail of `Minesweeper.reveal_cell` after the terminal-state guard,
the bounds guard and the lazy mine generation: the not-Hidden guard, the
mine hit, the flood reveal and the win check. -/
def reveal_core (b : Board) (row col : Int) : Board × Bool :=
  if b.cell_states (row, col) ≠ CellState.HIDDEN then (b, true)
  else if (row, col) ∈ b.mines then
    ({ b with
       cell_states := setCell b.cell_states (row, col) CellState.REVEALED
       game_state := GameState.LOST }, false)
  else
    let b2 := flood_reveal b row col
    if b2.cells_revealed = (b2.rows : Int) * (b2.cols : Int) - (b2.num_mines : Int) then
      ({ b2 with game_state := GameState.WON }, true)
    else (b2, true)

/-- `Minesweeper.reveal_cell`.  Returns the new state and the Python return
value (`True` if the game continues, `False` on a mine hit or in a terminal
state).  `sample` stands for the draw of `random.sample` on the first click. -/
def reveal_cell (sample : Finset (Int × Int)) (b : Board) (row col : Int) : Board × Bool :=
  if b.game_state = GameState.WON ∨ b.game_state = GameState.LOST then (b, false)
  else if ¬ inBounds b.rows b.cols row col then (b, true)
  else if b.first_click then
    reveal_core
      { generate_mines b row col sample with
        first_click := false
        game_state := GameState.PLAYING } row col
  else reveal_core b row col

/-- `Minesweeper.toggle_flag`. -/
def toggle_flag (b : Board) (row col : Int) : Board :=
  if b.game_state = GameState.WON ∨ b.game_state = GameState.LOST then b
  else if ¬ inBounds b.rows b.cols row col then b
  else if b.cell_states (row, col) = CellState.REVEALED then b
  else if b.cell_states (row, col) = CellState.HIDDEN then
    { b with
      cell_states := setCell b.cell_states (row, col) CellState.FLAGGED
      flags_placed := b.flags_placed + 1 }
  else if b.cell_states (row, col) = CellState.FLAGGED then
    { b with
      cell_states := setCell b.cell_states (row, col) CellState.HIDDEN
      flags_placed := b.flags_placed - 1 }
  else b

/-- `Minesweeper.is_mine`: raw membership test in the mine set; performs no
bounds check of its own. -/
def is_mine (b : Board) (row col : Int) : Bool :=
  decide ((row, col) ∈ b.mines)

/-- Python list indexing of a list of length `n`: indices in `[0, n)` are
used as-is, indices in `[-n, 0)` wrap to the opposite end, and anything else
raises `IndexError` (modelled as `none`). -/
def pyIndex (n : Nat) (i : Int) : Option Int :=
  if 0 ≤ i ∧ i < (n : Int) then some i
  else if -(n : Int) ≤ i ∧ i < 0 then some (i + n)
  else none

/-- `Minesweeper.get_cell_state`: `return self.cell_states[row][col]` with
Python list-indexing semantics (`none` = IndexError). -/
def get_cell_state (b : Board) (row col : Int) : Option CellState :=
  match pyIndex b.rows row, pyIndex b.cols col with
  | some i, some j => some (b.cell_states (i, j))
  | _, _ => none

/-- `Minesweeper.get_cell_value`: `return self.board[row][col]` with
Python list-indexing semantics (`none` = IndexError). -/
def get_cell_value (b : Board) (row col : Int) : Option Int :=
  match pyIndex b.rows row, pyIndex b.cols col with
  | some i, some j => some (b.board (i, j))
  | _, _ => none

/-- `Minesweeper.__init__` / `reset` on a rows/cols/mines triple. -/
def initBoard (rows cols num_mines : Nat) : Board :=
  { rows := rows
    cols := cols
    num_mines := num_mines
    board := fun _ => 0
    cell_states := fun _ => CellState.HIDDEN
    mines := ∅
    game_state := GameState.READY
    flags_placed := 0
    cells_revealed := 0
    first_click := true }

/-- The `Difficulty` presets. -/
inductive Difficulty where
  | BEGINNER
  | INTERMEDIATE
  | EXPERT
deriving DecidableEq, Repr

/-- `Difficulty.value`: the (rows, cols, mines) triple of each preset. -/
def Difficulty.value : Difficulty → Nat × Nat × Nat
  | .BEGINNER => (8, 8, 10)
  | .INTERMEDIATE => (16, 16, 40)
  | .EXPERT => (16, 30, 99)

/-- `Minesweeper(difficulty)` constructor. -/
def mkGame (d : Difficulty) : Board :=
  initBoard d.value.1 d.value.2.1 d.value.2.2

/-! ### Basic facts about the grid and neighbor enumeration -/

theorem mem_gridCells {rows cols : Nat} {p : Int × Int} :
    p ∈ gridCells rows cols ↔ inBounds rows cols p.1 p.2 := by
  obtain ⟨x, y⟩ := p
  unfold gridCells inBounds
  simp only [Finset.mem_image, Finset.mem_product, Finset.mem_range, Prod.exists,
    Prod.mk.injEq]
  constructor
  · rintro ⟨a, b, ⟨ha, hb⟩, rfl, rfl⟩
    refine ⟨by omega, by omega, by omega, by omega⟩
  · rintro ⟨h1, h2, h3, h4⟩
    exact ⟨x.toNat, y.toNat, ⟨by omega, by omega⟩, by omega, by omega⟩

theorem card_gridCells (rows cols : Nat) : (gridCells rows cols).card = rows * cols := by
  unfold gridCells
  rw [Finset.card_image_of_injective]
  · simp [Finset.card_product]
  · intro a b h
    cases a; cases b; simp_all

theorem mem_neighborsList {rows cols : Nat} {row col u v : Int} :
    (u, v) ∈ neighborsList rows cols row col ↔
      inBounds rows cols u v ∧ ¬(u = row ∧ v = col) ∧
        u - row ≤ 1 ∧ row - u ≤ 1 ∧ v - col ≤ 1 ∧ col - v ≤ 1 := by
  unfold neighborsList offsets inBounds
  simp only [List.mem_filterMap, List.mem_cons, List.not_mem_nil, or_false,
    Option.ite_none_right_eq_some, Option.some.injEq, Prod.mk.injEq]
  constructor
  · rintro ⟨d, (rfl | rfl | rfl | rfl | rfl | rfl | rfl | rfl),
      ⟨h1, h2, h3, h4⟩, rfl, rfl⟩ <;>
      refine ⟨⟨by omega, by omega, by omega, by omega⟩, by omega,
        by omega, by omega, by omega, by omega⟩
  · rintro ⟨⟨h1, h2, h3, h4⟩, hne, d1, d2, d3, d4⟩
    refine ⟨(u - row, v - col), ?_, ⟨by omega, by omega, by omega, by omega⟩,
      by omega, by omega⟩
    have hr : u - row = -1 ∨ u - row = 0 ∨ u - row = 1 := by omega
    have hc : v - col = -1 ∨ v - col = 0 ∨ v - col = 1 := by omega
    have hnz : ¬(u - row = 0 ∧ v - col = 0) := by omega
    rcases hr with h | h | h <;> rcases hc with h2 | h2 | h2 <;> simp [h, h2] at hnz ⊢

theorem mem_get_neighbors {rows cols : Nat} {row col : Int} {p : Int × Int} :
    p ∈ get_neighbors rows cols row col ↔ p ∈ neighborsList rows cols row col := by
  unfold get_neighbors; exact List.mem_toFinset

theorem neighborsList_inBounds {rows cols : Nat} {row col : Int} {p : Int × Int}
    (h : p ∈ neighborsList rows cols row col) : p ∈ gridCells rows cols := by
  obtain ⟨u, v⟩ := p
  rw [mem_neighborsList] at h
  exact mem_gridCells.mpr h.1

/-! ### Counting cells by state, and how the counts evolve under a point update -/

theorem card_filter_setCell {α : Type} (s : Finset (Int × Int)) (f : Int × Int → α)
    (p : Int × Int) (v : α) (P : α → Int × Int → Prop)
    [DecidablePred fun q => P (f q) q] [DecidablePred fun q => P (setCell f p v q) q]
    [Decidable (P v p)] [Decidable (P (f p) p)] (hp : p ∈ s) :
    ((s.filter fun q => P (setCell f p v q) q).card : Int)
      = (s.filter fun q => P (f q) q).card
        + (if P v p then 1 else 0) - (if P (f p) p then 1 else 0) := by
  by_cases hv : P v p <;> by_cases hf : P (f p) p <;>
    simp only [hv, hf, if_true, if_false]
  · have : (s.filter fun q => P (setCell f p v q) q) = s.filter fun q => P (f q) q := by
      ext q
      by_cases hq : q = p
      · subst hq; simp [setCell, hp, hv, hf]
      · simp [setCell, hq]
    rw [this]; omega
  · have hmem : p ∉ s.filter fun q => P (f q) q := by simp [hf]
    have : (s.filter fun q => P (setCell f p v q) q)
        = insert p (s.filter fun q => P (f q) q) := by
      ext q
      by_cases hq : q = p
      · subst hq; simp [setCell, hp, hv]
      · simp [setCell, hq]
    rw [this, Finset.card_insert_of_not_mem hmem]; omega
  · have hmem : p ∈ s.filter fun q => P (f q) q := by simp [hp, hf]
    have : (s.filter fun q => P (setCell f p v q) q)
        = (s.filter fun q => P (f q) q).erase p := by
      ext q
      by_cases hq : q = p
      · subst hq; simp [setCell, hv]
      · simp [setCell, hq, Finset.mem_erase]
    rw [this, Finset.card_erase_of_mem hmem]
    have : 1 ≤ (s.filter fun q => P (f q) q).card := Finset.card_pos.mpr ⟨p, hmem⟩
    omega
  · have : (s.filter fun q => P (setCell f p v q) q) = s.filter fun q => P (f q) q := by
      ext q
      by_cases hq : q = p
      · subst hq; simp [setCell, hv, hf]
      · simp [setCell, hq]
    rw [this]; omega

theorem stateCount_setCell {b c : Board} {p : Int × Int} {v : CellState}
    (hp : p ∈ gridCells b.rows b.cols) (s : CellState)
    (hr : c.rows = b.rows) (hc : c.cols = b.cols)
    (hcs : c.cell_states = setCell b.cell_states p v) :
    (stateCount c s : Int)
      = stateCount b s + (if v = s then 1 else 0)
        - (if b.cell_states p = s then 1 else 0) := by
  unfold stateCount
  rw [hr, hc, hcs]
  exact card_filter_setCell _ _ _ _ (fun a _ => a = s) hp

theorem revealedNonMineCount_setCell {b c : Board} {p : Int × Int} {v : CellState}
    (hp : p ∈ gridCells b.rows b.cols)
    (hr : c.rows = b.rows) (hc : c.cols = b.cols) (hm : c.mines = b.mines)
    (hcs : c.cell_states = setCell b.cell_states p v) :
    (revealedNonMineCount c : Int)
      = revealedNonMineCount b
        + (if v = CellState.REVEALED ∧ p ∉ b.mines then 1 else 0)
        - (if b.cell_states p = CellState.REVEALED ∧ p ∉ b.mines then 1 else 0) := by
  unfold revealedNonMineCount
  rw [hr, hc, hcs, hm]
  exact card_filter_setCell _ _ _ _ (fun a q => a = CellState.REVEALED ∧ q ∉ b.mines) hp

theorem revealedMineCount_setCell {b c : Board} {p : Int × Int} {v : CellState}
    (hp : p ∈ gridCells b.rows b.cols)
    (hr : c.rows = b.rows) (hc : c.cols = b.cols) (hm : c.mines = b.mines)
    (hcs : c.cell_states = setCell b.cell_states p v) :
    (revealedMineCount c : Int)
      = revealedMineCount b
        + (if v = CellState.REVEALED ∧ p ∈ b.mines then 1 else 0)
        - (if b.cell_states p = CellState.REVEALED ∧ p ∈ b.mines then 1 else 0) := by
  unfold revealedMineCount
  rw [hr, hc, hcs, hm]
  exact card_filter_setCell _ _ _ _ (fun a q => a = CellState.REVEALED ∧ q ∈ b.mines) hp

theorem stateCount_congr {b b' : Board} (hr : b'.rows = b.rows) (hc : b'.cols = b.cols)
    (hcs : b'.cell_states = b.cell_states) (s : CellState) :
    stateCount b' s = stateCount b s := by
  unfold stateCount; rw [hr, hc, hcs]

theorem revealedNonMineCount_congr {b b' : Board} (hr : b'.rows = b.rows)
    (hc : b'.cols = b.cols) (hcs : b'.cell_states = b.cell_states)
    (hm : b'.mines = b.mines) :
    revealedNonMineCount b' = revealedNonMineCount b := by
  unfold revealedNonMineCount; rw [hr, hc, hcs, hm]

theorem revealedMineCount_congr {b b' : Board} (hr : b'.rows = b.rows)
    (hc : b'.cols = b.cols) (hcs : b'.cell_states = b.cell_states)
    (hm : b'.mines = b.mines) :
    revealedMineCount b' = revealedMineCount b := by
  unfold revealedMineCount; rw [hr, hc, hcs, hm]

theorem stateCount_le (b : Board) (s : CellState) : stateCount b s ≤ b.rows * b.cols := by
  calc stateCount b s ≤ (gridCells b.rows b.cols).card := Finset.card_filter_le _ _
    _ = b.rows * b.cols := card_gridCells _ _

theorem revealedCount_split (b : Board) :
    revealedCount b = revealedNonMineCount b + revealedMineCount b := by
  unfold revealedCount stateCount revealedNonMineCount revealedMineCount
  rw [← Finset.filter_filter (fun p => b.cell_states p = CellState.REVEALED)
      (fun p => p ∉ b.mines),
    ← Finset.filter_filter (fun p => b.cell_states p = CellState.REVEALED)
      (fun p => p ∈ b.mines)]
  rw [add_comm]
  rw [← Finset.filter_card_add_filter_neg_card_eq_card
    (s := (gridCells b.rows b.cols).filter fun p => b.cell_states p = CellState.REVEALED)
    (p := fun p => p ∈ b.mines)]

theorem revealedNonMineCount_le (b : Board) (hm : b.mines ⊆ gridCells b.rows b.cols) :
    revealedNonMineCount b + b.mines.card ≤ b.rows * b.cols := by
  unfold revealedNonMineCount
  have hsub : (gridCells b.rows b.cols).filter
      (fun p => b.cell_states p = CellState.REVEALED ∧ p ∉ b.mines)
      ⊆ gridCells b.rows b.cols \ b.mines := by
    intro q hq
    simp only [Finset.mem_filter, Finset.mem_sdiff] at hq ⊢
    exact ⟨hq.1, hq.2.2⟩
  calc _ ≤ (gridCells b.rows b.cols \ b.mines).card + b.mines.card := by
        exact Nat.add_le_add_right (Finset.card_le_card hsub) _
    _ = (gridCells b.rows b.cols).card := Finset.card_sdiff_add_card_eq_card hm
    _ = b.rows * b.cols := card_gridCells _ _

/-! ### Frame properties of the flood fill

`FloodLe b b'` says that `b'` is obtained from `b` by revealing some set of
in-bounds, previously-Hidden, non-mine cells, with `cells_revealed` advanced
in lockstep with the number of newly Revealed cells, and every other field
untouched.  This is the shape of every state transition performed by
`_reveal_recursive`. -/

structure FloodLe (b b' : Board) : Prop where
  rows_eq : b'.rows = b.rows
  cols_eq : b'.cols = b.cols
  nm_eq : b'.num_mines = b.num_mines
  mines_eq : b'.mines = b.mines
  vals_eq : b'.board = b.board
  gs_eq : b'.game_state = b.game_state
  fc_eq : b'.first_click = b.first_click
  fp_eq : b'.flags_placed = b.flags_placed
  states : ∀ p, b'.cell_states p = b.cell_states p ∨
    (b.cell_states p = CellState.HIDDEN ∧ b'.cell_states p = CellState.REVEALED ∧
      p ∈ gridCells b.rows b.cols ∧ p ∉ b.mines)
  cnt : b'.cells_revealed - b.cells_revealed
    = (revealedCount b' : Int) - (revealedCount b : Int)

theorem FloodLe.refl (b : Board) : FloodLe b b :=
  ⟨rfl, rfl, rfl, rfl, rfl, rfl, rfl, rfl, fun _ => Or.inl rfl, by omega⟩

theorem FloodLe.trans {a b c : Board} (h1 : FloodLe a b) (h2 : FloodLe b c) :
    FloodLe a c := by
  refine ⟨h2.rows_eq.trans h1.rows_eq, h2.cols_eq.trans h1.cols_eq,
    h2.nm_eq.trans h1.nm_eq, h2.mines_eq.trans h1.mines_eq,
    h2.vals_eq.trans h1.vals_eq, h2.gs_eq.trans h1.gs_eq,
    h2.fc_eq.trans h1.fc_eq, h2.fp_eq.trans h1.fp_eq, ?_, by
      have e1 := h1.cnt; have e2 := h2.cnt; omega⟩
  intro p
  rcases h2.states p with h | h
  · rcases h1.states p with h' | h'
    · exact Or.inl (h.trans h')
    · exact Or.inr ⟨h'.1, h.trans h'.2.1, h'.2.2⟩
  · rcases h1.states p with h' | h'
    · rw [h'] at h
      exact Or.inr ⟨h.1, h.2.1, by rw [← h1.rows_eq, ← h1.cols_eq]; exact h.2.2.1,
        by rw [← h1.mines_eq]; exact h.2.2.2⟩
    · rw [h'.2.1] at h; cases h.1

/-- A cell that is not Hidden keeps its exact state across a `FloodLe` step. -/
theorem FloodLe.state_of_not_hidden {b b' : Board} (h : FloodLe b b') {p : Int × Int}
    (hp : b.cell_states p ≠ CellState.HIDDEN) : b'.cell_states p = b.cell_states p := by
  rcases h.states p with h' | h'
  · exact h'
  · exact absurd h'.1 hp

/-- A Hidden cell of the later board was already Hidden in the earlier one. -/
theorem FloodLe.hidden_back {b b' : Board} (h : FloodLe b b') {p : Int × Int}
    (hp : b'.cell_states p = CellState.HIDDEN) : b.cell_states p = CellState.HIDDEN := by
  rcases h.states p with h' | h'
  · rw [← h', hp]
  · rw [h'.2.1] at hp; cases hp

theorem FloodLe.flaggedCount_eq {b b' : Board} (h : FloodLe b b') :
    flaggedCount b' = flaggedCount b := by
  unfold flaggedCount stateCount
  rw [h.rows_eq, h.cols_eq]
  congr 1
  apply Finset.filter_congr
  intro p _
  rcases h.states p with h' | h' <;> simp only [h'] <;> simp [h'.1, h'.2.1]

theorem FloodLe.revealedMineCount_eq {b b' : Board} (h : FloodLe b b') :
    revealedMineCount b' = revealedMineCount b := by
  unfold revealedMineCount
  rw [h.rows_eq, h.cols_eq, h.mines_eq]
  congr 1
  apply Finset.filter_congr
  intro p _
  rcases h.states p with h' | h'
  · rw [h']
  · simp [h'.1, h'.2.1, h'.2.2.2]

theorem FloodLe.hiddenCount_le {b b' : Board} (h : FloodLe b b') :
    hiddenCount b' ≤ hiddenCount b := by
  unfold hiddenCount stateCount
  rw [h.rows_eq, h.cols_eq]
  apply Finset.card_le_card
  intro p hp
  simp only [Finset.mem_filter] at hp ⊢
  exact ⟨hp.1, h.hidden_back hp.2⟩

theorem FloodLe.revealedNonMineCount_cnt {b b' : Board} (h : FloodLe b b') :
    b'.cells_revealed - b.cells_revealed
      = (revealedNonMineCount b' : Int) - (revealedNonMineCount b : Int) := by
  have h1 := revealedCount_split b
  have h2 := revealedCount_split b'
  have h3 := h.revealedMineCount_eq
  have h4 := h.cnt
  omega

/-- The one-cell reveal performed in the body of `_reveal_recursive`
is a `FloodLe` step. -/
theorem FloodLe.single {b : Board} {row col : Int}
    (hin : inBounds b.rows b.cols row col)
    (hH : b.cell_states (row, col) = CellState.HIDDEN)
    (hm : (row, col) ∉ b.mines) :
    FloodLe b
      { b with
        cell_states := setCell b.cell_states (row, col) CellState.REVEALED
        cells_revealed := b.cells_revealed + 1 } := by
  have hp : (row, col) ∈ gridCells b.rows b.cols := mem_gridCells.mpr hin
  refine ⟨rfl, rfl, rfl, rfl, rfl, rfl, rfl, rfl, ?_, ?_⟩
  · intro p
    by_cases hq : p = (row, col)
    · subst hq; exact Or.inr ⟨hH, by simp [setCell], hp, hm⟩
    · exact Or.inl (by simp [setCell, hq])
  · have := stateCount_setCell (b := b)
      (c := { b with
        cell_states := setCell b.cell_states (row, col) CellState.REVEALED
        cells_revealed := b.cells_revealed + 1 })
      (p := (row, col)) (v := CellState.REVEALED) hp CellState.REVEALED rfl rfl rfl
    rw [hH] at this
    have h1 : (if CellState.REVEALED = CellState.REVEALED then (1 : Int) else 0) = 1 := by simp
    have h2 : (if CellState.HIDDEN = CellState.REVEALED then (1 : Int) else 0) = 0 := by simp
    rw [h1, h2] at this
    unfold revealedCount
    dsimp only
    omega

/-- Frame theorem: `_reveal_recursive` only performs `FloodLe` transitions,
for any recursion budget. -/
theorem reveal_recursive_floodLe :
    ∀ (fuel : Nat) (b : Board) (row col : Int),
      FloodLe b (reveal_recursive fuel b row col) := by
  intro fuel
  induction fuel with
  | zero => intro b row col; exact FloodLe.refl b
  | succ n IH =>
    intro b row col
    show FloodLe b (reveal_recursive (n + 1) b row col)
    rw [reveal_recursive]
    split
    · exact FloodLe.refl b
    · split
      · exact FloodLe.refl b
      · split
        · exact FloodLe.refl b
        · rename_i hin hH hm
          rw [not_not] at hin
          have hH' : b.cell_states (row, col) = CellState.HIDDEN := not_not.mp hH
          have hsingle := FloodLe.single hin hH' hm
          show FloodLe b (if b.board (row, col) = 0 then
            (neighborsList b.rows b.cols row col).foldl
              (fun bb p => reveal_recursive n bb p.1 p.2)
              { b with
                cell_states := setCell b.cell_states (row, col) CellState.REVEALED
                cells_revealed := b.cells_revealed + 1 }
            else
              { b with
                cell_states := setCell b.cell_states (row, col) CellState.REVEALED
                cells_revealed := b.cells_revealed + 1 })
          split
          · refine FloodLe.trans hsingle ?_
            generalize neighborsList b.rows b.cols row col = L
            generalize ({ b with
              cell_states := setCell b.cell_states (row, col) CellState.REVEALED
              cells_revealed := b.cells_revealed + 1 } : Board) = b1
            induction L generalizing b1 with
            | nil => exact FloodLe.refl b1
            | cons hd tl IHL =>
              simp only [List.foldl_cons]
              exact FloodLe.trans (IH b1 hd.1 hd.2) (IHL _)
          · exact hsingle

/-! ### Reachability through the flood fill

`FloodReach b s p` holds when the flood fill started at `s` can reach `p`:
either `p = s`, or `p` is a neighbor of some reachable cell that is
in-bounds, Hidden, not a mine and zero-valued (the exact conditions under
which `_reveal_recursive` expands a cell). -/

inductive FloodReach (b : Board) (s : Int × Int) : Int × Int → Prop where
  | base : FloodReach b s s
  | step {p q : Int × Int} (hr : FloodReach b s p)
      (hin : p ∈ gridCells b.rows b.cols)
      (hH : b.cell_states p = CellState.HIDDEN)
      (hm : p ∉ b.mines) (h0 : b.board p = 0)
      (hq : q ∈ neighborsList b.rows b.cols p.1 p.2) : FloodReach b s q

theorem FloodReach.chain {b : Board} {s p q : Int × Int}
    (h1 : FloodReach b s p) (h2 : FloodReach b p q) : FloodReach b s q := by
  induction h2 with
  | base => exact h1
  | step hr hin hH hm h0 hq IH => exact FloodReach.step IH hin hH hm h0 hq

/-- Reachability in a later `FloodLe` state implies reachability in the
earlier one: chain cells that are still Hidden later were already Hidden. -/
theorem FloodReach.mono {b bb : Board} (hle : FloodLe b bb) {s p : Int × Int}
    (h : FloodReach bb s p) : FloodReach b s p := by
  induction h with
  | base => exact FloodReach.base
  | step hr hin hH hm h0 hq IH =>
    refine FloodReach.step IH ?_ (hle.hidden_back hH) ?_ ?_ ?_
    · rw [hle.rows_eq, hle.cols_eq] at hin; exact hin
    · rw [hle.mines_eq] at hm; exact hm
    · rw [hle.vals_eq] at h0; exact h0
    · rw [hle.rows_eq, hle.cols_eq] at hq; exact hq

/-- The statement of the flood-fill specification at a given recursion
budget: (1) a Hidden, in-bounds, non-mine target is revealed; (2) closure:
once a zero-valued cell is newly revealed, none of its non-mine neighbors
remain Hidden; (3) soundness: every changed cell is flood-reachable from
the start. -/
def RRSpec (fuel : Nat) (b : Board) (row col : Int) : Prop :=
  (inBounds b.rows b.cols row col → b.cell_states (row, col) = CellState.HIDDEN →
    (row, col) ∉ b.mines →
    (reveal_recursive fuel b row col).cell_states (row, col) = CellState.REVEALED)
  ∧ (∀ p : Int × Int, p ∈ gridCells b.rows b.cols →
      b.cell_states p = CellState.HIDDEN →
      (reveal_recursive fuel b row col).cell_states p = CellState.REVEALED →
      b.board p = 0 →
      ∀ q ∈ neighborsList b.rows b.cols p.1 p.2, q ∉ b.mines →
        (reveal_recursive fuel b row col).cell_states q ≠ CellState.HIDDEN)
  ∧ (∀ p : Int × Int,
      (reveal_recursive fuel b row col).cell_states p ≠ b.cell_states p →
      FloodReach b (row, col) p)

/-- Specification of the neighbor fold inside `_reveal_recursive`, assuming
the specification of the recursive calls. -/
theorem flood_fold_spec (n : Nat)
    (IH : ∀ (b : Board) (row col : Int), hiddenCount b < n → RRSpec n b row col) :
    ∀ (L : List (Int × Int)) (bb : Board), hiddenCount bb < n →
      FloodLe bb (L.foldl (fun x p => reveal_recursive n x p.1 p.2) bb)
      ∧ (∀ q ∈ L, q ∈ gridCells bb.rows bb.cols → q ∉ bb.mines →
          (L.foldl (fun x p => reveal_recursive n x p.1 p.2) bb).cell_states q
            ≠ CellState.HIDDEN)
      ∧ (∀ p : Int × Int, p ∈ gridCells bb.rows bb.cols →
          bb.cell_states p = CellState.HIDDEN →
          (L.foldl (fun x p => reveal_recursive n x p.1 p.2) bb).cell_states p
            = CellState.REVEALED →
          bb.board p = 0 →
          ∀ q ∈ neighborsList bb.rows bb.cols p.1 p.2, q ∉ bb.mines →
            (L.foldl (fun x p => reveal_recursive n x p.1 p.2) bb).cell_states q
              ≠ CellState.HIDDEN)
      ∧ (∀ p : Int × Int,
          (L.foldl (fun x p => reveal_recursive n x p.1 p.2) bb).cell_states p
            ≠ bb.cell_states p →
          ∃ u ∈ L, FloodReach bb u p) := by
  intro L
  induction L with
  | nil =>
    intro bb hcnt
    simp only [List.foldl_nil]
    refine ⟨FloodLe.refl bb, ?_, ?_, ?_⟩
    · intro q hq; cases hq
    · intro p _ hH hR
      rw [hH] at hR; exact absurd hR (by decide)
    · intro p hne; exact absurd rfl hne
  | cons hd tl IHL =>
    obtain ⟨u, v⟩ := hd
    intro bb hcnt
    simp only [List.foldl_cons]
    set c1 := reveal_recursive n bb u v with hc1
    have hle1 : FloodLe bb c1 := reveal_recursive_floodLe n bb u v
    have hcnt1 : hiddenCount c1 < n := lt_of_le_of_lt hle1.hiddenCount_le hcnt
    obtain ⟨Hle2, HF2, HC2, HR2⟩ := IHL c1 hcnt1
    refine ⟨hle1.trans Hle2, ?_, ?_, ?_⟩
    · -- every listed non-mine in-bounds cell ends up non-Hidden
      intro q hq hqg hqm
      rcases List.mem_cons.mp hq with rfl | hqtl
      · by_cases hH : bb.cell_states (u, v) = CellState.HIDDEN
        · have hA := (IH bb u v hcnt).1
          rw [mem_gridCells] at hqg
          have hrev : c1.cell_states (u, v) = CellState.REVEALED := hA hqg hH hqm
          rw [Hle2.state_of_not_hidden (by rw [hrev]; decide), hrev]
          decide
        · have h1 : c1.cell_states (u, v) = bb.cell_states (u, v) :=
            hle1.state_of_not_hidden hH
          rw [Hle2.state_of_not_hidden (by rw [h1]; exact hH), h1]
          exact hH
      · refine HF2 q hqtl ?_ ?_
        · rw [hle1.rows_eq, hle1.cols_eq]; exact hqg
        · rw [hle1.mines_eq]; exact hqm
    · -- closure for newly revealed zero cells
      intro p hpg hH hR h0 q hq hqm
      by_cases hc1p : c1.cell_states p = CellState.REVEALED
      · have hB := (IH bb u v hcnt).2.1
        have hcl := hB p hpg hH hc1p h0 q hq hqm
        intro hbad
        exact hcl (Hle2.hidden_back hbad)
      · have hc1H : c1.cell_states p = CellState.HIDDEN := by
          rcases hle1.states p with h | h
          · rw [h]; exact hH
          · exact absurd h.2.1 hc1p
        refine HC2 p ?_ hc1H hR ?_ q ?_ ?_
        · rw [hle1.rows_eq, hle1.cols_eq]; exact hpg
        · rw [hle1.vals_eq]; exact h0
        · rw [hle1.rows_eq, hle1.cols_eq]; exact hq
        · rw [hle1.mines_eq]; exact hqm
    · -- every changed cell is flood-reachable from one of the roots
      intro p hne
      by_cases h1 : c1.cell_states p = bb.cell_states p
      · have h2 : (tl.foldl (fun x p => reveal_recursive n x p.1 p.2) c1).cell_states p
            ≠ c1.cell_states p := by rw [h1]; exact hne
        obtain ⟨w, hw, hreach⟩ := HR2 p h2
        exact ⟨w, List.mem_cons_of_mem _ hw, hreach.mono hle1⟩
      · have hC := (IH bb u v hcnt).2.2
        exact ⟨(u, v), List.mem_cons_self _ _, hC p h1⟩

/-- The flood-fill specification holds whenever the recursion budget
exceeds the number of Hidden cells. -/
theorem reveal_recursive_spec :
    ∀ (fuel : Nat) (b : Board) (row col : Int), hiddenCount b < fuel →
      RRSpec fuel b row col := by
  intro fuel
  induction fuel with
  | zero => intro b row col h; exact absurd h (Nat.not_lt_zero _)
  | succ n IH =>
    intro b row col hfuel
    unfold RRSpec
    rw [reveal_recursive]
    split
    · rename_i hnin
      refine ⟨fun hin => absurd hin hnin, ?_, ?_⟩
      · intro p _ hH hR; rw [hH] at hR; exact absurd hR (by decide)
      · intro p hne; exact absurd rfl hne
    · split
      · rename_i hnH
        refine ⟨fun _ hH => absurd hH hnH, ?_, ?_⟩
        · intro p _ hH hR; rw [hH] at hR; exact absurd hR (by decide)
        · intro p hne; exact absurd rfl hne
      · split
        · rename_i hmem
          refine ⟨fun _ _ hm => absurd hmem hm, ?_, ?_⟩
          · intro p _ hH hR; rw [hH] at hR; exact absurd hR (by decide)
          · intro p hne; exact absurd rfl hne
        · rename_i hnin hH0 hm
          rw [not_not] at hnin
          have hH' : b.cell_states (row, col) = CellState.HIDDEN := not_not.mp hH0
          have hgrid : (row, col) ∈ gridCells b.rows b.cols := mem_gridCells.mpr hnin
          have hsingle := FloodLe.single hnin hH' hm
          show
            (inBounds b.rows b.cols row col → _ → _ →
              (if b.board (row, col) = 0 then
                (neighborsList b.rows b.cols row col).foldl
                  (fun bb p => reveal_recursive n bb p.1 p.2)
                  { b with
                    cell_states := setCell b.cell_states (row, col) CellState.REVEALED
                    cells_revealed := b.cells_revealed + 1 }
              else
                { b with
                  cell_states := setCell b.cell_states (row, col) CellState.REVEALED
                  cells_revealed := b.cells_revealed + 1 }).cell_states (row, col)
                = CellState.REVEALED) ∧ _ ∧ _
          set b1 : Board :=
            { b with
              cell_states := setCell b.cell_states (row, col) CellState.REVEALED
              cells_revealed := b.cells_revealed + 1 } with hb1
          have hb1state : b1.cell_states (row, col) = CellState.REVEALED := by
            rw [hb1]; simp [setCell]
          have hb1other : ∀ p : Int × Int, p ≠ (row, col) →
              b1.cell_states p = b.cell_states p := by
            intro p hp; rw [hb1]; simp [setCell, hp]
          have hcnt1 : hiddenCount b1 + 1 = hiddenCount b := by
            have hsc := stateCount_setCell (b := b) (c := b1) (p := (row, col))
              (v := CellState.REVEALED) hgrid CellState.HIDDEN rfl rfl (by rw [hb1])
            rw [hH'] at hsc
            have e1 : (if CellState.REVEALED = CellState.HIDDEN then (1 : Int) else 0) = 0 := by
              simp
            have e2 : (if CellState.HIDDEN = CellState.HIDDEN then (1 : Int) else 0) = 1 := by
              simp
            rw [e1, e2] at hsc
            unfold hiddenCount
            omega
          split
          · -- zero-valued target: expand through the neighbors
            rename_i h0
            have hcnt1' : hiddenCount b1 < n := by omega
            obtain ⟨Hle, HF, HC, HR⟩ :=
              flood_fold_spec n IH (neighborsList b.rows b.cols row col) b1 hcnt1'
            refine ⟨?_, ?_, ?_⟩
            · intro _ _ _
              rw [Hle.state_of_not_hidden (by rw [hb1state]; decide)]
              exact hb1state
            · intro p hpg hHp hRp h0p q hq hqm
              by_cases hpc : p = (row, col)
              · subst hpc
                exact HF q hq (neighborsList_inBounds hq) hqm
              · refine HC p hpg ?_ hRp h0p q hq hqm
                rw [hb1other p hpc]; exact hHp
            · intro p hne
              by_cases hpc : p = (row, col)
              · subst hpc; exact FloodReach.base
              · have hne1 : (List.foldl (fun bb p => reveal_recursive n bb p.1 p.2)
                    b1 (neighborsList b.rows b.cols row col)).cell_states p
                    ≠ b1.cell_states p := by
                  rw [hb1other p hpc]; exact hne
                obtain ⟨w, hw, hreach⟩ := HR p hne1
                have hreach' : FloodReach b w p := hreach.mono hsingle
                have hstep : FloodReach b (row, col) w :=
                  FloodReach.step FloodReach.base hgrid hH' hm h0 hw
                exact hstep.chain hreach'
          · -- non-zero target: only the target itself is revealed
            rename_i h0
            refine ⟨fun _ _ _ => hb1state, ?_, ?_⟩
            · intro p _ hHp hRp h0p q hq hqm
              by_cases hpc : p = (row, col)
              · subst hpc; exact absurd h0p h0
              · rw [hb1other p hpc] at hRp
                rw [hHp] at hRp
                exact absurd hRp (by decide)
            · intro p hne
              by_cases hpc : p = (row, col)
              · subst hpc; exact FloodReach.base
              · rw [hb1other p hpc] at hne
                exact absurd rfl hne

theorem hiddenCount_lt_budget (b : Board) : hiddenCount b < b.rows * b.cols + 1 :=
  Nat.lt_succ_of_le (stateCount_le b CellState.HIDDEN)

/-- The flood-fill specification for `flood_reveal` (the recursion budget
`rows*cols + 1` always suffices). -/
theorem flood_reveal_spec (b : Board) (row col : Int) :
    RRSpec (b.rows * b.cols + 1) b row col :=
  reveal_recursive_spec _ b row col (hiddenCount_lt_budget b)

theorem flood_reveal_floodLe (b : Board) (row col : Int) :
    FloodLe b (flood_reveal b row col) :=
  reveal_recursive_floodLe _ b row col

/-! ### Equation lemmas for the board operations -/

theorem reveal_core_not_hidden {b : Board} {row col : Int}
    (h : b.cell_states (row, col) ≠ CellState.HIDDEN) :
    reveal_core b row col = (b, true) := by
  unfold reveal_core; rw [if_pos h]

theorem reveal_core_mine {b : Board} {row col : Int}
    (h1 : b.cell_states (row, col) = CellState.HIDDEN) (h2 : (row, col) ∈ b.mines) :
    reveal_core b row col =
      ({ b with
         cell_states := setCell b.cell_states (row, col) CellState.REVEALED
         game_state := GameState.LOST }, false) := by
  unfold reveal_core; rw [if_neg (not_not_intro h1), if_pos h2]

theorem reveal_core_flood {b : Board} {row col : Int}
    (h1 : b.cell_states (row, col) = CellState.HIDDEN) (h2 : (row, col) ∉ b.mines) :
    reveal_core b row col =
      if (flood_reveal b row col).cells_revealed
          = ((flood_reveal b row col).rows : Int) * ((flood_reveal b row col).cols : Int)
            - ((flood_reveal b row col).num_mines : Int) then
        ({ flood_reveal b row col with game_state := GameState.WON }, true)
      else (flood_reveal b row col, true) := by
  unfold reveal_core; rw [if_neg (not_not_intro h1), if_neg h2]

theorem reveal_cell_terminal {s : Finset (Int × Int)} {b : Board} {row col : Int}
    (h : b.game_state = GameState.WON ∨ b.game_state = GameState.LOST) :
    reveal_cell s b row col = (b, false) := by
  unfold reveal_cell; rw [if_pos h]

theorem reveal_cell_oob {s : Finset (Int × Int)} {b : Board} {row col : Int}
    (h1 : ¬(b.game_state = GameState.WON ∨ b.game_state = GameState.LOST))
    (h2 : ¬ inBounds b.rows b.cols row col) :
    reveal_cell s b row col = (b, true) := by
  unfold reveal_cell; rw [if_neg h1, if_pos h2]

theorem reveal_cell_fc {s : Finset (Int × Int)} {b : Board} {row col : Int}
    (h1 : ¬(b.game_state = GameState.WON ∨ b.game_state = GameState.LOST))
    (h2 : inBounds b.rows b.cols row col) (h3 : b.first_click = true) :
    reveal_cell s b row col =
      reveal_core
        { generate_mines b row col s with
          first_click := false
          game_state := GameState.PLAYING } row col := by
  unfold reveal_cell; rw [if_neg h1, if_neg (not_not_intro h2), if_pos h3]

theorem reveal_cell_nfc {s : Finset (Int × Int)} {b : Board} {row col : Int}
    (h1 : ¬(b.game_state = GameState.WON ∨ b.game_state = GameState.LOST))
    (h2 : inBounds b.rows b.cols row col) (h3 : b.first_click = false) :
    reveal_cell s b row col = reveal_core b row col := by
  unfold reveal_cell
  rw [if_neg h1, if_neg (not_not_intro h2), if_neg (by rw [h3]; exact Bool.false_ne_true)]

theorem toggle_flag_terminal {b : Board} {row col : Int}
    (h : b.game_state = GameState.WON ∨ b.game_state = GameState.LOST) :
    toggle_flag b row col = b := by
  unfold toggle_flag; rw [if_pos h]

theorem toggle_flag_oob {b : Board} {row col : Int}
    (h1 : ¬(b.game_state = GameState.WON ∨ b.game_state = GameState.LOST))
    (h2 : ¬ inBounds b.rows b.cols row col) :
    toggle_flag b row col = b := by
  unfold toggle_flag; rw [if_neg h1, if_pos h2]

theorem toggle_flag_revealed {b : Board} {row col : Int}
    (h1 : ¬(b.game_state = GameState.WON ∨ b.game_state = GameState.LOST))
    (h2 : inBounds b.rows b.cols row col)
    (h3 : b.cell_states (row, col) = CellState.REVEALED) :
    toggle_flag b row col = b := by
  unfold toggle_flag; rw [if_neg h1, if_neg (not_not_intro h2), if_pos h3]

theorem toggle_flag_hidden {b : Board} {row col : Int}
    (h1 : ¬(b.game_state = GameState.WON ∨ b.game_state = GameState.LOST))
    (h2 : inBounds b.rows b.cols row col)
    (h3 : b.cell_states (row, col) = CellState.HIDDEN) :
    toggle_flag b row col =
      { b with
        cell_states := setCell b.cell_states (row, col) CellState.FLAGGED
        flags_placed := b.flags_placed + 1 } := by
  unfold toggle_flag
  rw [if_neg h1, if_neg (not_not_intro h2), if_neg (by rw [h3]; exact by decide),
    if_pos h3]

theorem toggle_flag_flagged {b : Board} {row col : Int}
    (h1 : ¬(b.game_state = GameState.WON ∨ b.game_state = GameState.LOST))
    (h2 : inBounds b.rows b.cols row col)
    (h3 : b.cell_states (row, col) = CellState.FLAGGED) :
    toggle_flag b row col =
      { b with
        cell_states := setCell b.cell_states (row, col) CellState.HIDDEN
        flags_placed := b.flags_placed - 1 } := by
  unfold toggle_flag
  rw [if_neg h1, if_neg (not_not_intro h2), if_neg (by rw [h3]; exact by decide),
    if_neg (by rw [h3]; exact by decide), if_pos h3]

/-! ### Traces of player/agent operations

A trace is a list of `reveal`/`toggle_flag` calls; the sample drawn by
`random.sample` on a first click travels with the reveal operation, which
makes a whole run a pure function of the trace.  `opsOkB` states that every
sample consumed by a mine generation satisfies the contract of
`random.sample` (a subset of the pool, of size `num_mines`). -/

inductive Op where
  | reveal (sample : Finset (Int × Int)) (row col : Int)
  | flag (row col : Int)

def applyOp (b : Board) : Op → Board
  | .reveal s row col => (reveal_cell s b row col).1
  | .flag row col => toggle_flag b row col

def runOps (b : Board) (ops : List Op) : Board := ops.foldl applyOp b

/-- Admissibility of one operation: if this reveal triggers mine generation
(non-terminal state, in-bounds target, first click pending), the carried
sample must be a valid draw of `random.sample(available_cells, num_mines)`. -/
def opOkB (b : Board) : Op → Bool
  | .reveal s row col =>
    decide ((b.game_state ≠ GameState.WON ∧ b.game_state ≠ GameState.LOST ∧
        inBounds b.rows b.cols row col ∧ b.first_click = true) →
      (s ⊆ available_cells b.rows b.cols row col ∧ s.card = b.num_mines))
  | .flag _ _ => true

def opsOkB : Board → List Op → Bool
  | _, [] => true
  | b, op :: ops => opOkB b op && opsOkB (applyOp b op) ops

/-- The literal reading of "a mine cell is the direct target of a reveal
call": the targeted cell is in the mine set of the state the call is made
in. -/
def mineTargetB (b : Board) : Op → Bool
  | .reveal _ row col => decide ((row, col) ∈ b.mines)
  | .flag _ _ => false

def everMineTargetB : Board → List Op → Bool
  | _, [] => false
  | b, op :: ops => mineTargetB b op || everMineTargetB (applyOp b op) ops

/-- A losing hit: a reveal call made in a non-terminal state whose direct
target is a currently-Hidden mine.  (Such a target is in-bounds because the
mine set only ever contains grid cells.) -/
def losingHitB (b : Board) : Op → Bool
  | .reveal _ row col =>
    decide (b.game_state ≠ GameState.WON ∧ b.game_state ≠ GameState.LOST ∧
      (row, col) ∈ b.mines ∧ b.cell_states (row, col) = CellState.HIDDEN)
  | .flag _ _ => false

def everLosingHitB : Board → List Op → Bool
  | _, [] => false
  | b, op :: ops => losingHitB b op || everLosingHitB (applyOp b op) ops

/-! ### Reachable-state invariants -/

theorem revealedNonMineCount_le_revealedCount (b : Board) :
    revealedNonMineCount b ≤ revealedCount b := by
  have h := revealedCount_split b; omega

theorem revealedMineCount_le_revealedCount (b : Board) :
    revealedMineCount b ≤ revealedCount b := by
  have h := revealedCount_split b; omega

/-- The core invariant of every reachable board state. -/
structure InvCore (b : Board) : Prop where
  mines_sub : b.mines ⊆ gridCells b.rows b.cols
  fc_mines : b.first_click = true → b.mines = ∅
  fc_rev : b.first_click = true → revealedCount b = 0
  gen_card : b.first_click = false → b.mines.card = b.num_mines
  cr_eq : b.cells_revealed = (revealedNonMineCount b : Int)
  fp_eq : b.flags_placed = (flaggedCount b : Int)
  rm_eq : revealedMineCount b = if b.game_state = GameState.LOST then 1 else 0

/-- The win-threshold invariant: the Won state is entered exactly when
`cells_revealed` reaches `rows*cols - num_mines`, and in every other state
the counter is strictly below the threshold. -/
def WinInv (b : Board) : Prop :=
  if b.game_state = GameState.WON then
    b.cells_revealed = (b.rows : Int) * (b.cols : Int) - (b.num_mines : Int)
  else
    b.cells_revealed < (b.rows : Int) * (b.cols : Int) - (b.num_mines : Int)

theorem stateCount_initBoard (rows cols m : Nat) (s : CellState)
    (hs : s ≠ CellState.HIDDEN) : stateCount (initBoard rows cols m) s = 0 := by
  unfold stateCount initBoard
  rw [Finset.card_eq_zero, Finset.filter_eq_empty_iff]
  intro p _
  simpa using fun h => hs h.symm

theorem initBoard_InvCore (rows cols m : Nat) : InvCore (initBoard rows cols m) := by
  have hrev : revealedCount (initBoard rows cols m) = 0 :=
    stateCount_initBoard rows cols m CellState.REVEALED (by decide)
  have hrnm : revealedNonMineCount (initBoard rows cols m) = 0 := by
    have := revealedNonMineCount_le_revealedCount (initBoard rows cols m); omega
  have hrm : revealedMineCount (initBoard rows cols m) = 0 := by
    have := revealedMineCount_le_revealedCount (initBoard rows cols m); omega
  have hflag : flaggedCount (initBoard rows cols m) = 0 :=
    stateCount_initBoard rows cols m CellState.FLAGGED (by decide)
  refine ⟨Finset.empty_subset _, fun _ => rfl, fun _ => hrev, ?_, ?_, ?_, ?_⟩
  · intro h; simp [initBoard] at h
  · show (0 : Int) = _; rw [hrnm]; rfl
  · show (0 : Int) = _; rw [hflag]; rfl
  · rw [hrm]; simp [initBoard]

theorem initBoard_WinInv (rows cols m : Nat) (h : m < rows * cols) :
    WinInv (initBoard rows cols m) := by
  unfold WinInv
  rw [if_neg (by simp [initBoard])]
  unfold initBoard
  show (0 : Int) < _
  push_cast
  have : (m : Int) < (rows : Int) * cols := by exact_mod_cast h
  omega

theorem available_cells_sub (rows cols : Nat) (row col : Int) :
    available_cells rows cols row col ⊆ gridCells rows cols := by
  unfold available_cells; exact Finset.sdiff_subset

theorem target_not_in_sample {s : Finset (Int × Int)} {rows cols : Nat} {row col : Int}
    (hsub : s ⊆ available_cells rows cols row col) : (row, col) ∉ s := by
  intro h
  have h2 := hsub h
  unfold available_cells at h2
  rw [Finset.mem_sdiff] at h2
  exact h2.2 (Finset.mem_insert_self _ _)

/-- Mine generation preserves the core invariant (the generated board also
has `first_click = false`, `game_state = PLAYING` and the sampled mines). -/
theorem invcore_generate {b : Board} {row col : Int} {s : Finset (Int × Int)}
    (hInv : InvCore b) (hfc : b.first_click = true)
    (hsub : s ⊆ available_cells b.rows b.cols row col) (hcard : s.card = b.num_mines) :
    InvCore
      { generate_mines b row col s with
        first_click := false
        game_state := GameState.PLAYING } := by
  set gB : Board :=
    { generate_mines b row col s with
      first_click := false
      game_state := GameState.PLAYING } with hgB
  have hrev : revealedCount gB = revealedCount b := by
    apply stateCount_congr <;> rw [hgB] <;> rfl
  have hrev0 : revealedCount gB = 0 := by rw [hrev]; exact hInv.fc_rev hfc
  have hrnm : revealedNonMineCount gB = 0 := by
    have := revealedNonMineCount_le_revealedCount gB; omega
  have hrm : revealedMineCount gB = 0 := by
    have := revealedMineCount_le_revealedCount gB; omega
  have hcr0 : b.cells_revealed = 0 := by
    have h1 := hInv.cr_eq
    have h2 : revealedNonMineCount b ≤ revealedCount b :=
      revealedNonMineCount_le_revealedCount b
    have h3 := hInv.fc_rev hfc
    omega
  refine ⟨?_, ?_, ?_, ?_, ?_, ?_, ?_⟩
  · show s ⊆ gridCells b.rows b.cols
    exact hsub.trans (available_cells_sub _ _ _ _)
  · intro h; rw [hgB] at h; simp at h
  · intro h; rw [hgB] at h; simp at h
  · intro _; exact hcard
  · show b.cells_revealed = (revealedNonMineCount gB : Int)
    rw [hrnm, hcr0]; rfl
  · show b.flags_placed = (flaggedCount gB : Int)
    have : flaggedCount gB = flaggedCount b := by
      apply stateCount_congr <;> rw [hgB] <;> rfl
    rw [this]; exact hInv.fp_eq
  · rw [hrm]
    rw [if_neg (by rw [hgB]; simp)]

/-- A `FloodLe` transition from a post-generation state preserves the core
invariant. -/
theorem invcore_floodLe {b b' : Board} (hInv : InvCore b) (hle : FloodLe b b')
    (hfc : b.first_click = false) : InvCore b' := by
  refine ⟨?_, ?_, ?_, ?_, ?_, ?_, ?_⟩
  · rw [hle.mines_eq, hle.rows_eq, hle.cols_eq]; exact hInv.mines_sub
  · intro h; rw [hle.fc_eq, hfc] at h; exact absurd h (by decide)
  · intro h; rw [hle.fc_eq, hfc] at h; exact absurd h (by decide)
  · intro _; rw [hle.mines_eq, hle.nm_eq]; exact hInv.gen_card hfc
  · have h1 := hle.revealedNonMineCount_cnt
    have h2 := hInv.cr_eq
    omega
  · rw [hle.fp_eq, hle.flaggedCount_eq]; exact hInv.fp_eq
  · rw [hle.revealedMineCount_eq, hle.gs_eq]; exact hInv.rm_eq

/-- Per-call specification of `reveal_core` on a post-generation board:
the invariant is preserved, the Lost state is entered exactly on a direct
hit of a Hidden mine (in which case the mine is marked Revealed and the call
returns `false`), the dimensions are unchanged, and the win-threshold
invariant is preserved. -/
theorem core_spec {b : Board} {row col : Int} (hInv : InvCore b)
    (hterm : ¬(b.game_state = GameState.WON ∨ b.game_state = GameState.LOST))
    (hfc : b.first_click = false) :
    InvCore (reveal_core b row col).1
    ∧ ((reveal_core b row col).1.game_state = GameState.LOST ↔
        ((row, col) ∈ b.mines ∧ b.cell_states (row, col) = CellState.HIDDEN))
    ∧ (reveal_core b row col).1.rows = b.rows
    ∧ (reveal_core b row col).1.cols = b.cols
    ∧ (reveal_core b row col).1.num_mines = b.num_mines
    ∧ (WinInv b → WinInv (reveal_core b row col).1)
    ∧ ((row, col) ∈ b.mines ∧ b.cell_states (row, col) = CellState.HIDDEN →
        (reveal_core b row col).2 = false
        ∧ (reveal_core b row col).1.cell_states (row, col) = CellState.REVEALED) := by
  have hgsW : b.game_state ≠ GameState.WON := fun h => hterm (Or.inl h)
  have hgsL : b.game_state ≠ GameState.LOST := fun h => hterm (Or.inr h)
  by_cases hH : b.cell_states (row, col) = CellState.HIDDEN
  case neg =>
    rw [reveal_core_not_hidden hH]
    refine ⟨hInv, ?_, rfl, rfl, rfl, fun h => h, fun h => absurd h.2 hH⟩
    constructor
    · intro h; exact absurd h hgsL
    · intro h; exact absurd h.2 hH
  case pos =>
    by_cases hm : (row, col) ∈ b.mines
    · -- direct mine hit
      rw [reveal_core_mine hH hm]
      have hgrid : (row, col) ∈ gridCells b.rows b.cols := hInv.mines_sub hm
      set bL : Board :=
        { b with
          cell_states := setCell b.cell_states (row, col) CellState.REVEALED
          game_state := GameState.LOST } with hbL
      have e6 : bL.game_state = GameState.LOST := rfl
      have e9 : bL.cell_states = setCell b.cell_states (row, col) CellState.REVEALED := rfl
      have hrnm : (revealedNonMineCount bL : Int) = revealedNonMineCount b := by
        have h := revealedNonMineCount_setCell (b := b) (c := bL) hgrid rfl rfl rfl e9
        rw [if_neg (fun hc => hc.2 hm),
          if_neg (fun hc => by rw [hH] at hc; exact absurd hc.1 (by decide))] at h
        omega
      have hflg : (flaggedCount bL : Int) = flaggedCount b := by
        have h := stateCount_setCell (b := b) (c := bL) hgrid CellState.FLAGGED rfl rfl e9
        rw [if_neg (by decide),
          if_neg (by rw [hH]; exact by decide)] at h
        unfold flaggedCount
        omega
      have hrm0 : revealedMineCount b = 0 := by
        rw [hInv.rm_eq, if_neg hgsL]
      have hrm : (revealedMineCount bL : Int) = revealedMineCount b + 1 := by
        have h := revealedMineCount_setCell (b := b) (c := bL) hgrid rfl rfl rfl e9
        rw [if_pos ⟨rfl, hm⟩,
          if_neg (fun hc => by rw [hH] at hc; exact absurd hc.1 (by decide))] at h
        omega
      refine ⟨⟨?_, ?_, ?_, ?_, ?_, ?_, ?_⟩, ?_, rfl, rfl, rfl, ?_, ?_⟩
      · exact hInv.mines_sub
      · intro h; rw [show bL.first_click = b.first_click from rfl, hfc] at h
        exact absurd h (by decide)
      · intro h; rw [show bL.first_click = b.first_click from rfl, hfc] at h
        exact absurd h (by decide)
      · intro _; exact hInv.gen_card hfc
      · show b.cells_revealed = (revealedNonMineCount bL : Int)
        rw [hrnm]; exact hInv.cr_eq
      · show b.flags_placed = (flaggedCount bL : Int)
        rw [hflg]; exact hInv.fp_eq
      · show revealedMineCount bL = if bL.game_state = GameState.LOST then 1 else 0
        rw [e6, if_pos rfl]
        omega
      · simp only [e6, hm, hH]; simp
      · intro hW
        unfold WinInv at hW ⊢
        rw [e6, if_neg (by decide)]
        rw [if_neg hgsW] at hW
        exact hW
      · intro _
        refine ⟨rfl, ?_⟩
        rw [e9]; simp [setCell]
    · -- flood reveal of a non-mine cell
      rw [reveal_core_flood hH hm]
      have hle : FloodLe b (flood_reveal b row col) := flood_reveal_floodLe b row col
      have hInv2 : InvCore (flood_reveal b row col) := invcore_floodLe hInv hle hfc
      set b2 := flood_reveal b row col with hb2
      have hgs2 : b2.game_state = b.game_state := hle.gs_eq
      have hfc2 : b2.first_click = false := by rw [hle.fc_eq]; exact hfc
      split
      · rename_i hWin
        refine ⟨⟨?_, ?_, ?_, ?_, ?_, ?_, ?_⟩, ?_, hle.rows_eq, hle.cols_eq, hle.nm_eq,
          ?_, fun h => absurd h.1 hm⟩
        · exact hInv2.mines_sub
        · intro h; rw [show ({b2 with game_state := GameState.WON} : Board).first_click
              = b2.first_click from rfl, hfc2] at h
          exact absurd h (by decide)
        · intro h; rw [show ({b2 with game_state := GameState.WON} : Board).first_click
              = b2.first_click from rfl, hfc2] at h
          exact absurd h (by decide)
        · intro _; exact hInv2.gen_card hfc2
        · exact hInv2.cr_eq
        · exact hInv2.fp_eq
        · rw [show ({b2 with game_state := GameState.WON} : Board).game_state
              = GameState.WON from rfl, if_neg (by decide)]
          have h := hInv2.rm_eq
          rw [hgs2, if_neg hgsL] at h
          exact h
        · rw [show ({b2 with game_state := GameState.WON} : Board).game_state
              = GameState.WON from rfl]
          simp [hm]
        · intro _
          unfold WinInv
          rw [show ({b2 with game_state := GameState.WON} : Board).game_state
              = GameState.WON from rfl, if_pos rfl]
          exact hWin
      · rename_i hnWin
        refine ⟨hInv2, ?_, hle.rows_eq, hle.cols_eq, hle.nm_eq, ?_,
          fun h => absurd h.1 hm⟩
        · rw [hgs2]; simp [hgsL, hm]
        · intro _
          unfold WinInv
          rw [hgs2, if_neg hgsW]
          have hcard : b2.mines.card = b2.num_mines := hInv2.gen_card hfc2
          have hb := revealedNonMineCount_le b2 hInv2.mines_sub
          have hcr := hInv2.cr_eq
          have hlink : ((b2.rows * b2.cols : Nat) : Int)
              = (b2.rows : Int) * (b2.cols : Int) := by push_cast; ring
          show b2.cells_revealed
            < (b2.rows : Int) * (b2.cols : Int) - (b2.num_mines : Int)
          omega

/-- Per-call specification of `reveal_cell`. -/
theorem reveal_spec {s : Finset (Int × Int)} {b : Board} {row col : Int}
    (hInv : InvCore b) (hok : opOkB b (.reveal s row col) = true) :
    InvCore (reveal_cell s b row col).1
    ∧ ((reveal_cell s b row col).1.game_state = GameState.LOST ↔
        (b.game_state = GameState.LOST ∨ losingHitB b (.reveal s row col) = true))
    ∧ (reveal_cell s b row col).1.rows = b.rows
    ∧ (reveal_cell s b row col).1.cols = b.cols
    ∧ (reveal_cell s b row col).1.num_mines = b.num_mines
    ∧ (WinInv b → WinInv (reveal_cell s b row col).1) := by
  simp only [opOkB, decide_eq_true_eq] at hok
  simp only [losingHitB, decide_eq_true_eq]
  by_cases hterm : b.game_state = GameState.WON ∨ b.game_state = GameState.LOST
  · rw [reveal_cell_terminal hterm]
    refine ⟨hInv, ?_, rfl, rfl, rfl, fun h => h⟩
    constructor
    · intro h; exact Or.inl h
    · rintro (h | ⟨h1, h2, _⟩)
      · exact h
      · rcases hterm with ht | ht
        · exact absurd ht h1
        · exact ht
  · have hgsW : b.game_state ≠ GameState.WON := fun h => hterm (Or.inl h)
    have hgsL : b.game_state ≠ GameState.LOST := fun h => hterm (Or.inr h)
    by_cases hin : inBounds b.rows b.cols row col
    case neg =>
      rw [reveal_cell_oob hterm hin]
      refine ⟨hInv, ?_, rfl, rfl, rfl, fun h => h⟩
      constructor
      · intro h; exact absurd h hgsL
      · rintro (h | ⟨_, _, hmem, _⟩)
        · exact absurd h hgsL
        · exact absurd (mem_gridCells.mp (hInv.mines_sub hmem)) hin
    case pos =>
      cases hfc : b.first_click with
      | true =>
        rw [reveal_cell_fc hterm hin hfc]
        obtain ⟨hsub, hcard⟩ := hok ⟨hgsW, hgsL, hin, hfc⟩
        have hInvG := invcore_generate hInv hfc hsub hcard
        have hmines0 : b.mines = ∅ := hInv.fc_mines hfc
        obtain ⟨h1, h2, h3, h4, h5, h6, _⟩ :=
          core_spec (b := { generate_mines b row col s with
            first_click := false
            game_state := GameState.PLAYING }) hInvG (by simp) rfl
        refine ⟨h1, ?_, h3, h4, h5, ?_⟩
        · rw [h2]
          constructor
          · intro hc
            exact absurd hc.1 (target_not_in_sample hsub)
          · rintro (h | ⟨_, _, hmem, _⟩)
            · exact absurd h hgsL
            · rw [hmines0] at hmem; exact absurd hmem (Finset.not_mem_empty _)
        · intro hW
          apply h6
          unfold WinInv at hW ⊢
          rw [if_neg hgsW] at hW
          rw [if_neg (by simp)]
          exact hW
      | false =>
        rw [reveal_cell_nfc hterm hin hfc]
        obtain ⟨h1, h2, h3, h4, h5, h6, _⟩ := core_spec hInv hterm hfc
        refine ⟨h1, ?_, h3, h4, h5, h6⟩
        rw [h2]
        constructor
        · intro hc; exact Or.inr ⟨hgsW, hgsL, hc.1, hc.2⟩
        · rintro (h | ⟨_, _, hmem, hHid⟩)
          · exact absurd h hgsL
          · exact ⟨hmem, hHid⟩

/-- Per-call specification of `toggle_flag`. -/
theorem flag_spec {b : Board} (row col : Int) (hInv : InvCore b) :
    InvCore (toggle_flag b row col)
    ∧ (toggle_flag b row col).game_state = b.game_state
    ∧ (toggle_flag b row col).rows = b.rows
    ∧ (toggle_flag b row col).cols = b.cols
    ∧ (toggle_flag b row col).num_mines = b.num_mines
    ∧ (WinInv b → WinInv (toggle_flag b row col)) := by
  by_cases hterm : b.game_state = GameState.WON ∨ b.game_state = GameState.LOST
  · rw [toggle_flag_terminal hterm]
    exact ⟨hInv, rfl, rfl, rfl, rfl, fun h => h⟩
  · by_cases hin : inBounds b.rows b.cols row col
    case neg =>
      rw [toggle_flag_oob hterm hin]
      exact ⟨hInv, rfl, rfl, rfl, rfl, fun h => h⟩
    case pos =>
      have hgrid : (row, col) ∈ gridCells b.rows b.cols := mem_gridCells.mpr hin
      cases hcs : b.cell_states (row, col) with
      | REVEALED =>
        rw [toggle_flag_revealed hterm hin hcs]
        exact ⟨hInv, rfl, rfl, rfl, rfl, fun h => h⟩
      | HIDDEN =>
        rw [toggle_flag_hidden hterm hin hcs]
        set bF : Board :=
          { b with
            cell_states := setCell b.cell_states (row, col) CellState.FLAGGED
            flags_placed := b.flags_placed + 1 } with hbF
        have e9 : bF.cell_states = setCell b.cell_states (row, col) CellState.FLAGGED := rfl
        have hflg : (flaggedCount bF : Int) = flaggedCount b + 1 := by
          have h := stateCount_setCell (b := b) (c := bF) hgrid CellState.FLAGGED rfl rfl e9
          rw [if_pos rfl, if_neg (by rw [hcs]; exact by decide)] at h
          unfold flaggedCount
          omega
        have hrev : (revealedCount bF : Int) = revealedCount b := by
          have h := stateCount_setCell (b := b) (c := bF) hgrid CellState.REVEALED rfl rfl e9
          rw [if_neg (by decide), if_neg (by rw [hcs]; exact by decide)] at h
          unfold revealedCount
          omega
        have hrnm : (revealedNonMineCount bF : Int) = revealedNonMineCount b := by
          have h := revealedNonMineCount_setCell (b := b) (c := bF) hgrid rfl rfl rfl e9
          rw [if_neg (fun hc => by exact absurd hc.1 (by decide)),
            if_neg (fun hc => by rw [hcs] at hc; exact absurd hc.1 (by decide))] at h
          omega
        have hrm : (revealedMineCount bF : Int) = revealedMineCount b := by
          have h := revealedMineCount_setCell (b := b) (c := bF) hgrid rfl rfl rfl e9
          rw [if_neg (fun hc => by exact absurd hc.1 (by decide)),
            if_neg (fun hc => by rw [hcs] at hc; exact absurd hc.1 (by decide))] at h
          omega
        refine ⟨⟨hInv.mines_sub, hInv.fc_mines, ?_, hInv.gen_card, ?_, ?_, ?_⟩,
          rfl, rfl, rfl, rfl, ?_⟩
        · intro h
          have h2 := hInv.fc_rev h
          omega
        · show b.cells_revealed = (revealedNonMineCount bF : Int)
          rw [hrnm]; exact hInv.cr_eq
        · show b.flags_placed + 1 = (flaggedCount bF : Int)
          rw [hflg, hInv.fp_eq]
        · show revealedMineCount bF = if b.game_state = GameState.LOST then 1 else 0
          have h2 := hInv.rm_eq
          omega
        · intro hW
          unfold WinInv at hW ⊢
          exact hW
      | FLAGGED =>
        rw [toggle_flag_flagged hterm hin hcs]
        set bF : Board :=
          { b with
            cell_states := setCell b.cell_states (row, col) CellState.HIDDEN
            flags_placed := b.flags_placed - 1 } with hbF
        have e9 : bF.cell_states = setCell b.cell_states (row, col) CellState.HIDDEN := rfl
        have hflg : (flaggedCount bF : Int) = flaggedCount b - 1 := by
          have h := stateCount_setCell (b := b) (c := bF) hgrid CellState.FLAGGED rfl rfl e9
          rw [if_neg (by decide), if_pos hcs] at h
          unfold flaggedCount
          omega
        have hrev : (revealedCount bF : Int) = revealedCount b := by
          have h := stateCount_setCell (b := b) (c := bF) hgrid CellState.REVEALED rfl rfl e9
          rw [if_neg (by decide), if_neg (by rw [hcs]; exact by decide)] at h
          unfold revealedCount
          omega
        have hrnm : (revealedNonMineCount bF : Int) = revealedNonMineCount b := by
          have h := revealedNonMineCount_setCell (b := b) (c := bF) hgrid rfl rfl rfl e9
          rw [if_neg (fun hc => by exact absurd hc.1 (by decide)),
            if_neg (fun hc => by rw [hcs] at hc; exact absurd hc.1 (by decide))] at h
          omega
        have hrm : (revealedMineCount bF : Int) = revealedMineCount b := by
          have h := revealedMineCount_setCell (b := b) (c := bF) hgrid rfl rfl rfl e9
          rw [if_neg (fun hc => by exact absurd hc.1 (by decide)),
            if_neg (fun hc => by rw [hcs] at hc; exact absurd hc.1 (by decide))] at h
          omega
        refine ⟨⟨hInv.mines_sub, hInv.fc_mines, ?_, hInv.gen_card, ?_, ?_, ?_⟩,
          rfl, rfl, rfl, rfl, ?_⟩
        · intro h
          have h2 := hInv.fc_rev h
          omega
        · show b.cells_revealed = (revealedNonMineCount bF : Int)
          rw [hrnm]; exact hInv.cr_eq
        · show b.flags_placed - 1 = (flaggedCount bF : Int)
          rw [hflg, hInv.fp_eq]
        · show revealedMineCount bF = if b.game_state = GameState.LOST then 1 else 0
          have h2 := hInv.rm_eq
          omega
        · intro hW
          unfold WinInv at hW ⊢
          exact hW

/-- Per-operation specification. -/
theorem step_spec (b : Board) (op : Op) (hInv : InvCore b) (hok : opOkB b op = true) :
    InvCore (applyOp b op)
    ∧ ((applyOp b op).game_state = GameState.LOST ↔
        (b.game_state = GameState.LOST ∨ losingHitB b op = true))
    ∧ (applyOp b op).rows = b.rows
    ∧ (applyOp b op).cols = b.cols
    ∧ (applyOp b op).num_mines = b.num_mines
    ∧ (WinInv b → WinInv (applyOp b op)) := by
  cases op with
  | reveal s row col => exact reveal_spec hInv hok
  | flag row col =>
    obtain ⟨h1, h2, h3, h4, h5, h6⟩ := flag_spec row col hInv
    refine ⟨h1, ?_, h3, h4, h5, h6⟩
    show (toggle_flag b row col).game_state = GameState.LOST ↔ _
    rw [h2]
    simp [losingHitB]

/-- Whole-run specification: the invariants hold in every state reached by
an admissible trace, and the Lost state is entered exactly when some reveal
in the trace directly targets a currently-Hidden mine. -/
theorem runOps_spec :
    ∀ (ops : List Op) (b : Board), InvCore b → opsOkB b ops = true →
      InvCore (runOps b ops)
      ∧ ((runOps b ops).game_state = GameState.LOST ↔
          (b.game_state = GameState.LOST ∨ everLosingHitB b ops = true))
      ∧ (runOps b ops).rows = b.rows
      ∧ (runOps b ops).cols = b.cols
      ∧ (runOps b ops).num_mines = b.num_mines
      ∧ (WinInv b → WinInv (runOps b ops)) := by
  intro ops
  induction ops with
  | nil =>
    intro b hInv _
    refine ⟨hInv, ?_, rfl, rfl, rfl, fun h => h⟩
    simp [runOps, everLosingHitB]
  | cons op ops IH =>
    intro b hInv hok
    rw [opsOkB, Bool.and_eq_true] at hok
    obtain ⟨s1, s2, s3, s4, s5, s6⟩ := step_spec b op hInv hok.1
    have hrun : runOps b (op :: ops) = runOps (applyOp b op) ops := rfl
    obtain ⟨r1, r2, r3, r4, r5, r6⟩ := IH (applyOp b op) s1 hok.2
    rw [hrun]
    refine ⟨r1, ?_, r3.trans s3, r4.trans s4, r5.trans s5, fun h => r6 (s6 h)⟩
    rw [r2, s2]
    show _ ↔ (_ ∨ everLosingHitB b (op :: ops) = true)
    rw [everLosingHitB, Bool.or_eq_true]
    tauto

/-! ### The pattern-recognition agent (src/ai/pattern_agent.py)

The agent reads the game only through `get_cell_state` / `get_cell_value`
(raw list indexing); its cell-state helpers are modelled through the same
`pyIndex` semantics, so a coordinate outside the wrapped Python index range
(an `IndexError` in Python) simply fails the state test.  `random.choice`
in the guess fallback is modelled by an arbitrary index `k` reduced modulo
the list length. -/

def intRange (n : Nat) : List Int := (List.range n).map fun i : Nat => (i : Int)

/-- `PatternAgent._is_revealed`. -/
def is_revealed (b : Board) (row col : Int) : Bool :=
  decide (get_cell_state b row col = some CellState.REVEALED)

/-- `PatternAgent._is_hidden`. -/
def is_hidden (b : Board) (row col : Int) : Bool :=
  decide (get_cell_state b row col = some CellState.HIDDEN)

/-- `PatternAgent._is_flagged`. -/
def is_flagged (b : Board) (row col : Int) : Bool :=
  decide (get_cell_state b row col = some CellState.FLAGGED)

/-- `PatternAgent._get_effective_value`: the cell value minus the number of
flagged neighbors, 0 for a non-revealed cell.  (When the cell is revealed it
is in range, so the `getD` default is never consulted.) -/
def get_effective_value (b : Board) (row col : Int) : Int :=
  if is_revealed b row col then
    (get_cell_value b row col).getD 0
      - (((neighborsList b.rows b.cols row col).filter fun q => is_flagged b q.1 q.2).length : Int)
  else 0

/-- The `hidden_neighbors` list computed inside the constraint pass. -/
def hidden_neighbors (b : Board) (row col : Int) : List (Int × Int) :=
  (neighborsList b.rows b.cols row col).filter fun q => is_hidden b q.1 q.2

/-- `PatternAgent.find_certain_mines`: for every revealed cell whose hidden
neighbors are exactly as many as its effective value (a positive one), all
of them are mines; duplicates removed at the end (`list(set(...))`).  The
set's iteration order is unspecified in Python; `dedup` keeps the first
occurrences, one admissible order. -/
def find_certain_mines (b : Board) : List (Int × Int) :=
  ((intRange b.rows).flatMap fun row =>
    (intRange b.cols).flatMap fun col =>
      if is_revealed b row col then
        if ((hidden_neighbors b row col).length : Int) = get_effective_value b row col
            ∧ 0 < get_effective_value b row col then
          hidden_neighbors b row col
        else []
      else []).dedup

/-- `PatternAgent.find_certain_safe`: for every revealed cell with effective
value 0, all hidden neighbors are safe. -/
def find_certain_safe (b : Board) : List (Int × Int) :=
  ((intRange b.rows).flatMap fun row =>
    (intRange b.cols).flatMap fun col =>
      if is_revealed b row col then
        if get_effective_value b row col = 0 ∧ hidden_neighbors b row col ≠ [] then
          hidden_neighbors b row col
        else []
      else []).dedup

/-- Mines contributed by the horizontal 1-2 checks at `(row, col)`:
the bottom-wall branch and then the top-wall branch. -/
def h12_mines (b : Board) (row col : Int) : List (Int × Int) :=
  if is_revealed b row col ∧ is_revealed b row (col + 1) then
    (if get_effective_value b row col = 1 ∧ get_effective_value b row (col + 1) = 2
        ∧ row = (b.rows : Int) - 1 ∧ col + 2 < (b.cols : Int)
        ∧ is_hidden b row (col + 2) then [(row, col + 2)] else [])
    ++ (if get_effective_value b row col = 1 ∧ get_effective_value b row (col + 1) = 2
        ∧ row = 0 ∧ col + 2 < (b.cols : Int)
        ∧ is_hidden b row (col + 2) then [(row, col + 2)] else [])
  else []

/-- Safe cells contributed by the horizontal 1-2 checks at `(row, col)`. -/
def h12_safe (b : Board) (row col : Int) : List (Int × Int) :=
  if is_revealed b row col ∧ is_revealed b row (col + 1) then
    (if get_effective_value b row col = 1 ∧ get_effective_value b row (col + 1) = 2
        ∧ row = (b.rows : Int) - 1 ∧ 0 < col
        ∧ is_hidden b row (col - 1) then [(row, col - 1)] else [])
    ++ (if get_effective_value b row col = 1 ∧ get_effective_value b row (col + 1) = 2
        ∧ row = 0 ∧ 0 < col
        ∧ is_hidden b row (col - 1) then [(row, col - 1)] else [])
  else []

/-- Mines contributed by the vertical 1-2 checks at `(row, col)`:
the left-wall branch and then the right-wall branch. -/
def v12_mines (b : Board) (row col : Int) : List (Int × Int) :=
  if is_revealed b row col ∧ is_revealed b (row + 1) col then
    (if get_effective_value b row col = 1 ∧ get_effective_value b (row + 1) col = 2
        ∧ col = 0 ∧ row + 2 < (b.rows : Int)
        ∧ is_hidden b (row + 2) col then [(row + 2, col)] else [])
    ++ (if get_effective_value b row col = 1 ∧ get_effective_value b (row + 1) col = 2
        ∧ col = (b.cols : Int) - 1 ∧ row + 2 < (b.rows : Int)
        ∧ is_hidden b (row + 2) col then [(row + 2, col)] else [])
  else []

/-- Safe cells contributed by the vertical 1-2 checks at `(row, col)`. -/
def v12_safe (b : Board) (row col : Int) : List (Int × Int) :=
  if is_revealed b row col ∧ is_revealed b (row + 1) col then
    (if get_effective_value b row col = 1 ∧ get_effective_value b (row + 1) col = 2
        ∧ col = 0 ∧ 0 < row
        ∧ is_hidden b (row - 1) col then [(row - 1, col)] else [])
    ++ (if get_effective_value b row col = 1 ∧ get_effective_value b (row + 1) col = 2
        ∧ col = (b.cols : Int) - 1 ∧ 0 < row
        ∧ is_hidden b (row - 1) col then [(row - 1, col)] else [])
  else []

/-- `PatternAgent.check_1_2_pattern`: returns `(mines, safe)`, horizontal
pairs `(row, col)-(row, col+1)` scanned over all rows and `col <
cols - 1`, then vertical pairs `(row, col)-(row+1, col)`, each deduplicated
at the end. -/
def check_1_2_pattern (b : Board) : List (Int × Int) × List (Int × Int) :=
  ((((intRange b.rows).flatMap fun row => (intRange (b.cols - 1)).flatMap fun col =>
      h12_mines b row col)
    ++ ((intRange (b.rows - 1)).flatMap fun row => (intRange b.cols).flatMap fun col =>
      v12_mines b row col)).dedup,
   (((intRange b.rows).flatMap fun row => (intRange (b.cols - 1)).flatMap fun col =>
      h12_safe b row col)
    ++ ((intRange (b.rows - 1)).flatMap fun row => (intRange b.cols).flatMap fun col =>
      v12_safe b row col)).dedup)

/-- Mines contributed by the horizontal 1-2-1 check at `(row, col)`. -/
def h121_mines (b : Board) (row col : Int) : List (Int × Int) :=
  if is_revealed b row col ∧ is_revealed b row (col + 1) ∧ is_revealed b row (col + 2) then
    if get_effective_value b row col = 1 ∧ get_effective_value b row (col + 1) = 2
        ∧ get_effective_value b row (col + 2) = 1 then
      if row = 0 then
        (if row + 1 < (b.rows : Int) ∧ is_hidden b (row + 1) col
          then [(row + 1, col)] else [])
        ++ (if row + 1 < (b.rows : Int) ∧ is_hidden b (row + 1) (col + 2)
          then [(row + 1, col + 2)] else [])
      else if row = (b.rows : Int) - 1 then
        (if 0 ≤ row - 1 ∧ is_hidden b (row - 1) col
          then [(row - 1, col)] else [])
        ++ (if 0 ≤ row - 1 ∧ is_hidden b (row - 1) (col + 2)
          then [(row - 1, col + 2)] else [])
      else []
    else []
  else []

/-- Mines contributed by the vertical 1-2-1 check at `(row, col)`. -/
def v121_mines (b : Board) (row col : Int) : List (Int × Int) :=
  if is_revealed b row col ∧ is_revealed b (row + 1) col ∧ is_revealed b (row + 2) col then
    if get_effective_value b row col = 1 ∧ get_effective_value b (row + 1) col = 2
        ∧ get_effective_value b (row + 2) col = 1 then
      if col = 0 then
        (if col + 1 < (b.cols : Int) ∧ is_hidden b row (col + 1)
          then [(row, col + 1)] else [])
        ++ (if col + 1 < (b.cols : Int) ∧ is_hidden b (row + 2) (col + 1)
          then [(row + 2, col + 1)] else [])
      else if col = (b.cols : Int) - 1 then
        (if 0 ≤ col - 1 ∧ is_hidden b row (col - 1)
          then [(row, col - 1)] else [])
        ++ (if 0 ≤ col - 1 ∧ is_hidden b (row + 2) (col - 1)
          then [(row + 2, col - 1)] else [])
      else []
    else []
  else []

/-- `PatternAgent.check_1_2_1_pattern`. -/
def check_1_2_1_pattern (b : Board) : List (Int × Int) :=
  (((intRange b.rows).flatMap fun row => (intRange (b.cols - 2)).flatMap fun col =>
      h121_mines b row col)
    ++ ((intRange (b.rows - 2)).flatMap fun row => (intRange b.cols).flatMap fun col =>
      v121_mines b row col)).dedup

/-- `PatternAgent.check_1_1_pattern`: the four edge scans in source order
(left, right, top, bottom), deduplicated. -/
def check_1_1_pattern (b : Board) : List (Int × Int) :=
  (((intRange b.rows).flatMap fun row =>
      if is_revealed b row 0 ∧ is_revealed b row 1
          ∧ get_effective_value b row 0 = 1 ∧ get_effective_value b row 1 = 1
          ∧ 2 < (b.cols : Int) ∧ is_hidden b row 2 then [(row, 2)] else [])
    ++ ((intRange b.rows).flatMap fun row =>
      if is_revealed b row ((b.cols : Int) - 1) ∧ is_revealed b row ((b.cols : Int) - 2)
          ∧ get_effective_value b row ((b.cols : Int) - 1) = 1
          ∧ get_effective_value b row ((b.cols : Int) - 2) = 1
          ∧ 0 ≤ (b.cols : Int) - 3 ∧ is_hidden b row ((b.cols : Int) - 3)
        then [(row, (b.cols : Int) - 3)] else [])
    ++ ((intRange b.cols).flatMap fun col =>
      if is_revealed b 0 col ∧ is_revealed b 1 col
          ∧ get_effective_value b 0 col = 1 ∧ get_effective_value b 1 col = 1
          ∧ 2 < (b.rows : Int) ∧ is_hidden b 2 col then [(2, col)] else [])
    ++ ((intRange b.cols).flatMap fun col =>
      if is_revealed b ((b.rows : Int) - 1) col ∧ is_revealed b ((b.rows : Int) - 2) col
          ∧ get_effective_value b ((b.rows : Int) - 1) col = 1
          ∧ get_effective_value b ((b.rows : Int) - 2) col = 1
          ∧ 0 ≤ (b.rows : Int) - 3 ∧ is_hidden b ((b.rows : Int) - 3) col
        then [((b.rows : Int) - 3, col)] else [])).dedup

/-- The kind tag of an agent action (the strings `'flag'` / `'reveal'`). -/
inductive ActKind where
  | flag
  | reveal
deriving DecidableEq, Repr

/-- The row-major list of Hidden cells built by `_make_educated_guess`. -/
def hidden_cells (b : Board) : List (Int × Int) :=
  (intRange b.rows).flatMap fun row =>
    (intRange b.cols).flatMap fun col =>
      if is_hidden b row col then [(row, col)] else []

/-- The corner list of `_make_educated_guess`. -/
def agent_corners (b : Board) : List (Int × Int) :=
  [(0, 0), (0, (b.cols : Int) - 1), ((b.rows : Int) - 1, 0),
   ((b.rows : Int) - 1, (b.cols : Int) - 1)]

def revealed_neighbor_count (b : Board) (row col : Int) : Nat :=
  ((neighborsList b.rows b.cols row col).filter fun q => is_revealed b q.1 q.2).length

/-- The best-cell fold of `_make_educated_guess`: first cell with a strictly
greater count of revealed neighbors wins, starting from `(None, -1)`. -/
def guess_fold (b : Board) (hc : List (Int × Int)) : Option (Int × Int) × Int :=
  hc.foldl
    (fun acc p =>
      if (revealed_neighbor_count b p.1 p.2 : Int) > acc.2 then
        (some p, (revealed_neighbor_count b p.1 p.2 : Int))
      else acc)
    (none, -1)

/-- `PatternAgent._make_educated_guess`; `k` models `random.choice`:
prefer a Hidden cell with the most Revealed neighbors; when every Hidden
cell has none, prefer a Hidden corner, else choose at random. -/
def make_educated_guess (b : Board) (k : Nat) : Option (ActKind × Int × Int) :=
  if (hidden_cells b).isEmpty then none
  else if (guess_fold b (hidden_cells b)).2 = 0 then
    match (agent_corners b).find? fun q => decide (q ∈ hidden_cells b) with
    | some q => some (.reveal, q.1, q.2)
    | none =>
      some (.reveal, ((hidden_cells b).getD (k % (hidden_cells b).length) (0, 0)).1,
        ((hidden_cells b).getD (k % (hidden_cells b).length) (0, 0)).2)
  else
    match (guess_fold b (hidden_cells b)).1 with
    | some p => some (.reveal, p.1, p.2)
    | none => none

/-- `PatternAgent.choose_action`: the priority chain — certain mines,
certain safe, 1-2-1 mines, 1-2 mines, 1-2 safe, 1-1 safe, educated guess.
(The Python code binds the steps to local variables; step 5 is written out
in both arms of the step-4 fall-through here.) -/
def choose_action (b : Board) (k : Nat) : Option (ActKind × Int × Int) :=
  match (find_certain_mines b).find? fun p => is_hidden b p.1 p.2 with
  | some p => some (.flag, p.1, p.2)
  | none =>
    match find_certain_safe b with
    | p :: _ => some (.reveal, p.1, p.2)
    | [] =>
      match (check_1_2_1_pattern b).find? fun p => is_hidden b p.1 p.2 with
      | some p => some (.flag, p.1, p.2)
      | none =>
        match (check_1_2_pattern b).1.find? fun p => is_hidden b p.1 p.2 with
        | some p => some (.flag, p.1, p.2)
        | none =>
          match (check_1_2_pattern b).2 with
          | p :: _ =>
            if is_hidden b p.1 p.2 then some (.reveal, p.1, p.2)
            else
              match check_1_1_pattern b with
              | q :: _ => some (.reveal, q.1, q.2)
              | [] => make_educated_guess b k
          | [] =>
            match check_1_1_pattern b with
            | q :: _ => some (.reveal, q.1, q.2)
            | [] => make_educated_guess b k

/-! ### Membership facts about the agent's scans -/

theorem mem_intRange {n : Nat} {i : Int} : i ∈ intRange n ↔ 0 ≤ i ∧ i < n := by
  have key : i ∈ (List.range n).map (fun j : Nat => (j : Int)) ↔ 0 ≤ i ∧ i < n := by
    rw [List.mem_map]
    constructor
    · rintro ⟨a, ha, rfl⟩
      rw [List.mem_range] at ha
      exact ⟨Int.natCast_nonneg a, by exact_mod_cast ha⟩
    · rintro ⟨h1, h2⟩
      refine ⟨i.toNat, ?_, Int.toNat_of_nonneg h1⟩
      rw [List.mem_range]
      omega
  unfold intRange
  exact key

theorem mem_ite_list {α : Type} {c : Prop} [Decidable c] {l : List α} {p : α} :
    (p ∈ if c then l else []) ↔ c ∧ p ∈ l := by
  split
  · rename_i h; simp [h]
  · rename_i h; simp [h]

/-- For an in-bounds coordinate, `get_cell_state` is the plain grid read. -/
theorem get_cell_state_inBounds {b : Board} {row col : Int}
    (h : inBounds b.rows b.cols row col) :
    get_cell_state b row col = some (b.cell_states (row, col)) := by
  obtain ⟨h1, h2, h3, h4⟩ := h
  unfold get_cell_state pyIndex
  rw [if_pos ⟨h1, h2⟩, if_pos ⟨h3, h4⟩]

theorem get_cell_value_inBounds {b : Board} {row col : Int}
    (h : inBounds b.rows b.cols row col) :
    get_cell_value b row col = some (b.board (row, col)) := by
  obtain ⟨h1, h2, h3, h4⟩ := h
  unfold get_cell_value pyIndex
  rw [if_pos ⟨h1, h2⟩, if_pos ⟨h3, h4⟩]

theorem hidden_neighbors_hidden {b : Board} {row col : Int} {p : Int × Int}
    (h : p ∈ hidden_neighbors b row col) : is_hidden b p.1 p.2 = true :=
  (List.mem_filter.mp h).2

theorem hidden_neighbors_inBounds {b : Board} {row col : Int} {p : Int × Int}
    (h : p ∈ hidden_neighbors b row col) : p ∈ gridCells b.rows b.cols :=
  neighborsList_inBounds (List.mem_filter.mp h).1

theorem mem_find_certain_mines {b : Board} {p : Int × Int} :
    p ∈ find_certain_mines b ↔
      ∃ row col : Int, (0 ≤ row ∧ row < b.rows ∧ 0 ≤ col ∧ col < b.cols)
        ∧ is_revealed b row col = true
        ∧ ((hidden_neighbors b row col).length : Int) = get_effective_value b row col
        ∧ 0 < get_effective_value b row col
        ∧ p ∈ hidden_neighbors b row col := by
  unfold find_certain_mines
  rw [List.mem_dedup]
  simp only [List.mem_flatMap, mem_intRange]
  constructor
  · rintro ⟨row, ⟨hr1, hr2⟩, col, ⟨hc1, hc2⟩, hp⟩
    rw [mem_ite_list] at hp
    obtain ⟨hrev, hp⟩ := hp
    rw [mem_ite_list] at hp
    obtain ⟨⟨hlen, hpos⟩, hp⟩ := hp
    exact ⟨row, col, ⟨hr1, hr2, hc1, hc2⟩, hrev, hlen, hpos, hp⟩
  · rintro ⟨row, col, ⟨hr1, hr2, hc1, hc2⟩, hrev, hlen, hpos, hp⟩
    refine ⟨row, ⟨hr1, hr2⟩, col, ⟨hc1, hc2⟩, ?_⟩
    rw [mem_ite_list]
    exact ⟨hrev, by rw [mem_ite_list]; exact ⟨⟨hlen, hpos⟩, hp⟩⟩

theorem mem_find_certain_safe {b : Board} {p : Int × Int} :
    p ∈ find_certain_safe b ↔
      ∃ row col : Int, (0 ≤ row ∧ row < b.rows ∧ 0 ≤ col ∧ col < b.cols)
        ∧ is_revealed b row col = true
        ∧ get_effective_value b row col = 0
        ∧ hidden_neighbors b row col ≠ []
        ∧ p ∈ hidden_neighbors b row col := by
  unfold find_certain_safe
  rw [List.mem_dedup]
  simp only [List.mem_flatMap, mem_intRange]
  constructor
  · rintro ⟨row, ⟨hr1, hr2⟩, col, ⟨hc1, hc2⟩, hp⟩
    rw [mem_ite_list] at hp
    obtain ⟨hrev, hp⟩ := hp
    rw [mem_ite_list] at hp
    obtain ⟨⟨heff, hne⟩, hp⟩ := hp
    exact ⟨row, col, ⟨hr1, hr2, hc1, hc2⟩, hrev, heff, hne, hp⟩
  · rintro ⟨row, col, ⟨hr1, hr2, hc1, hc2⟩, hrev, heff, hne, hp⟩
    refine ⟨row, ⟨hr1, hr2⟩, col, ⟨hc1, hc2⟩, ?_⟩
    rw [mem_ite_list]
    exact ⟨hrev, by rw [mem_ite_list]; exact ⟨⟨heff, hne⟩, hp⟩⟩

theorem mem_hidden_cells {b : Board} {p : Int × Int} :
    p ∈ hidden_cells b ↔
      (0 ≤ p.1 ∧ p.1 < b.rows ∧ 0 ≤ p.2 ∧ p.2 < b.cols)
        ∧ is_hidden b p.1 p.2 = true := by
  unfold hidden_cells
  simp only [List.mem_flatMap, mem_intRange]
  constructor
  · rintro ⟨row, hrow, col, hcol, hp⟩
    rw [mem_ite_list, List.mem_singleton] at hp
    obtain ⟨hh, rfl⟩ := hp
    exact ⟨⟨hrow.1, hrow.2, hcol.1, hcol.2⟩, hh⟩
  · rintro ⟨⟨h1, h2, h3, h4⟩, hh⟩
    refine ⟨p.1, ⟨h1, h2⟩, p.2, ⟨h3, h4⟩, ?_⟩
    rw [mem_ite_list, List.mem_singleton]
    exact ⟨hh, rfl⟩

/-- Cells reported by the 1-2-1 check are Hidden and in-bounds. -/
theorem mem_check_1_2_1 {b : Board} {p : Int × Int}
    (hp : p ∈ check_1_2_1_pattern b) :
    is_hidden b p.1 p.2 = true ∧ p ∈ gridCells b.rows b.cols := by
  unfold check_1_2_1_pattern at hp
  rw [List.mem_dedup, List.mem_append] at hp
  rcases hp with hp | hp <;> simp only [List.mem_flatMap, mem_intRange] at hp
  · obtain ⟨row, hrow, col, hcol, hp⟩ := hp
    unfold h121_mines at hp
    split at hp
    · split at hp
      · split at hp
        · rename_i hwall
          simp only [List.mem_append, mem_ite_list, List.mem_singleton] at hp
          rw [mem_gridCells]
          unfold inBounds
          rcases hp with ⟨⟨hb, hh⟩, rfl⟩ | ⟨⟨hb, hh⟩, rfl⟩ <;>
            (refine ⟨hh, ?_, ?_, ?_, ?_⟩ <;> (dsimp only; omega))
        · split at hp
          · rename_i hwall
            simp only [List.mem_append, mem_ite_list, List.mem_singleton] at hp
            rw [mem_gridCells]
            unfold inBounds
            rcases hp with ⟨⟨hb, hh⟩, rfl⟩ | ⟨⟨hb, hh⟩, rfl⟩ <;>
              (refine ⟨hh, ?_, ?_, ?_, ?_⟩ <;> (dsimp only; omega))
          · cases hp
      · cases hp
    · cases hp
  · obtain ⟨row, hrow, col, hcol, hp⟩ := hp
    unfold v121_mines at hp
    split at hp
    · split at hp
      · split at hp
        · rename_i hwall
          simp only [List.mem_append, mem_ite_list, List.mem_singleton] at hp
          rw [mem_gridCells]
          unfold inBounds
          rcases hp with ⟨⟨hb, hh⟩, rfl⟩ | ⟨⟨hb, hh⟩, rfl⟩ <;>
            (refine ⟨hh, ?_, ?_, ?_, ?_⟩ <;> (dsimp only; omega))
        · split at hp
          · rename_i hwall
            simp only [List.mem_append, mem_ite_list, List.mem_singleton] at hp
            rw [mem_gridCells]
            unfold inBounds
            rcases hp with ⟨⟨hb, hh⟩, rfl⟩ | ⟨⟨hb, hh⟩, rfl⟩ <;>
              (refine ⟨hh, ?_, ?_, ?_, ?_⟩ <;> (dsimp only; omega))
          · cases hp
      · cases hp
    · cases hp

/-- Cells reported as mines by the 1-2 check are Hidden and in-bounds. -/
theorem mem_check_1_2_mines {b : Board} {p : Int × Int}
    (hp : p ∈ (check_1_2_pattern b).1) :
    is_hidden b p.1 p.2 = true ∧ p ∈ gridCells b.rows b.cols := by
  unfold check_1_2_pattern at hp
  rw [List.mem_dedup, List.mem_append] at hp
  rcases hp with hp | hp <;> simp only [List.mem_flatMap, mem_intRange] at hp
  · obtain ⟨row, hrow, col, hcol, hp⟩ := hp
    unfold h12_mines at hp
    split at hp
    · simp only [List.mem_append, mem_ite_list, List.mem_singleton] at hp
      rw [mem_gridCells]
      unfold inBounds
      rcases hp with ⟨⟨h1, h2, h3, h4, hh⟩, rfl⟩ | ⟨⟨h1, h2, h3, h4, hh⟩, rfl⟩ <;>
        (refine ⟨hh, ?_, ?_, ?_, ?_⟩ <;> (dsimp only; omega))
    · cases hp
  · obtain ⟨row, hrow, col, hcol, hp⟩ := hp
    unfold v12_mines at hp
    split at hp
    · simp only [List.mem_append, mem_ite_list, List.mem_singleton] at hp
      rw [mem_gridCells]
      unfold inBounds
      rcases hp with ⟨⟨h1, h2, h3, h4, hh⟩, rfl⟩ | ⟨⟨h1, h2, h3, h4, hh⟩, rfl⟩ <;>
        (refine ⟨hh, ?_, ?_, ?_, ?_⟩ <;> (dsimp only; omega))
    · cases hp

/-- Cells reported safe by the 1-2 check are Hidden and in-bounds. -/
theorem mem_check_1_2_safe {b : Board} {p : Int × Int}
    (hp : p ∈ (check_1_2_pattern b).2) :
    is_hidden b p.1 p.2 = true ∧ p ∈ gridCells b.rows b.cols := by
  unfold check_1_2_pattern at hp
  rw [List.mem_dedup, List.mem_append] at hp
  rcases hp with hp | hp <;> simp only [List.mem_flatMap, mem_intRange] at hp
  · obtain ⟨row, hrow, col, hcol, hp⟩ := hp
    unfold h12_safe at hp
    split at hp
    · simp only [List.mem_append, mem_ite_list, List.mem_singleton] at hp
      rw [mem_gridCells]
      unfold inBounds
      rcases hp with ⟨⟨h1, h2, h3, h4, hh⟩, rfl⟩ | ⟨⟨h1, h2, h3, h4, hh⟩, rfl⟩ <;>
        (refine ⟨hh, ?_, ?_, ?_, ?_⟩ <;> (dsimp only; omega))
    · cases hp
  · obtain ⟨row, hrow, col, hcol, hp⟩ := hp
    unfold v12_safe at hp
    split at hp
    · simp only [List.mem_append, mem_ite_list, List.mem_singleton] at hp
      rw [mem_gridCells]
      unfold inBounds
      rcases hp with ⟨⟨h1, h2, h3, h4, hh⟩, rfl⟩ | ⟨⟨h1, h2, h3, h4, hh⟩, rfl⟩ <;>
        (refine ⟨hh, ?_, ?_, ?_, ?_⟩ <;> (dsimp only; omega))
    · cases hp

/-- Cells reported by the 1-1 check are Hidden and in-bounds. -/
theorem mem_check_1_1 {b : Board} {p : Int × Int}
    (hp : p ∈ check_1_1_pattern b) :
    is_hidden b p.1 p.2 = true ∧ p ∈ gridCells b.rows b.cols := by
  unfold check_1_1_pattern at hp
  rw [List.mem_dedup] at hp
  simp only [List.mem_append, List.mem_flatMap, mem_intRange] at hp
  rw [mem_gridCells]
  unfold inBounds
  rcases hp with ((⟨row, hrow, hp⟩ | ⟨row, hrow, hp⟩) | ⟨col, hcol, hp⟩) | ⟨col, hcol, hp⟩ <;>
    · rw [mem_ite_list, List.mem_singleton] at hp
      obtain ⟨⟨hr1, hr2, he1, he2, hb, hh⟩, rfl⟩ := hp
      (refine ⟨hh, ?_, ?_, ?_, ?_⟩ <;> (dsimp only; omega))

/-! ### The guess fallback always picks a Hidden cell -/

theorem guess_fold_keeps_some (b : Board) :
    ∀ (l : List (Int × Int)) (a : Option (Int × Int) × Int) (q : Int × Int),
      a.1 = some q →
      ∃ q2, (l.foldl
          (fun acc p =>
            if (revealed_neighbor_count b p.1 p.2 : Int) > acc.2 then
              (some p, (revealed_neighbor_count b p.1 p.2 : Int))
            else acc) a).1 = some q2 ∧ (q2 = q ∨ q2 ∈ l) := by
  intro l
  induction l with
  | nil => intro a q h; exact ⟨q, h, Or.inl rfl⟩
  | cons hd tl IH =>
    intro a q h
    simp only [List.foldl_cons]
    by_cases hc : (revealed_neighbor_count b hd.1 hd.2 : Int) > a.2
    · rw [if_pos hc]
      obtain ⟨q2, h2, hor⟩ :=
        IH (some hd, (revealed_neighbor_count b hd.1 hd.2 : Int)) hd rfl
      refine ⟨q2, h2, ?_⟩
      rcases hor with rfl | h3
      · exact Or.inr (List.mem_cons_self _ _)
      · exact Or.inr (List.mem_cons_of_mem _ h3)
    · rw [if_neg hc]
      obtain ⟨q2, h2, hor⟩ := IH a q h
      refine ⟨q2, h2, ?_⟩
      rcases hor with rfl | h3
      · exact Or.inl rfl
      · exact Or.inr (List.mem_cons_of_mem _ h3)

theorem guess_fold_mem (b : Board) (hd : Int × Int) (tl : List (Int × Int)) :
    ∃ q, (guess_fold b (hd :: tl)).1 = some q ∧ q ∈ hd :: tl := by
  unfold guess_fold
  simp only [List.foldl_cons]
  have hc : (revealed_neighbor_count b hd.1 hd.2 : Int) > (-1 : Int) := by
    have h := Int.natCast_nonneg (revealed_neighbor_count b hd.1 hd.2); omega
  rw [if_pos hc]
  obtain ⟨q2, h2, hor⟩ := guess_fold_keeps_some b tl
    (some hd, (revealed_neighbor_count b hd.1 hd.2 : Int)) hd rfl
  refine ⟨q2, h2, ?_⟩
  rcases hor with rfl | h3
  · exact List.mem_cons_self _ _
  · exact List.mem_cons_of_mem _ h3

theorem getD_mem_of_lt {α : Type} (d : α) :
    ∀ (l : List α) (i : Nat), i < l.length → l.getD i d ∈ l := by
  intro l
  induction l with
  | nil => intro i h; exact absurd h (by simp)
  | cons hd tl IH =>
    intro i h
    cases i with
    | zero => rw [List.getD_cons_zero]; exact List.mem_cons_self _ _
    | succ n =>
      rw [List.getD_cons_succ]
      exact List.mem_cons_of_mem _ (IH n (by rw [List.length_cons] at h; omega))

/-- A branch of the action selector that returns a fixed Hidden in-bounds
cell satisfies both halves of the selector's specification. -/
theorem some_branch_pack {b : Board} {p : Int × Int} (a0 : ActKind)
    (hph : is_hidden b p.1 p.2 = true) (hpg : p ∈ gridCells b.rows b.cols) :
    (∀ (a : ActKind) (r c : Int),
      (some (a0, p.1, p.2) : Option (ActKind × Int × Int)) = some (a, r, c) →
      is_hidden b r c = true)
    ∧ ((some (a0, p.1, p.2) : Option (ActKind × Int × Int)) = none ↔
        hidden_cells b = []) := by
  constructor
  · intro a r c h
    simp only [Option.some.injEq, Prod.mk.injEq] at h
    obtain ⟨-, h2, h3⟩ := h
    rw [← h2, ← h3]
    exact hph
  · constructor
    · intro h; simp at h
    · intro h
      have hpmem : p ∈ hidden_cells b :=
        mem_hidden_cells.mpr ⟨mem_gridCells.mp hpg, hph⟩
      rw [h] at hpmem
      exact absurd hpmem (List.not_mem_nil p)

/-- Specification of the guess fallback: every action it returns targets a
Hidden cell, and it returns nothing exactly when no Hidden cell remains. -/
theorem guess_spec (b : Board) (k : Nat) :
    (∀ (a : ActKind) (r c : Int), make_educated_guess b k = some (a, r, c) →
      is_hidden b r c = true)
    ∧ (make_educated_guess b k = none ↔ hidden_cells b = []) := by
  unfold make_educated_guess
  split
  · rename_i hempty
    have hnil : hidden_cells b = [] := by
      cases h : hidden_cells b with
      | nil => rfl
      | cons hd tl => rw [h] at hempty; simp at hempty
    constructor
    · intro a r c h; simp at h
    · simp [hnil]
  · rename_i hempty
    have hne : hidden_cells b ≠ [] := by
      intro h; exact hempty (by rw [h]; rfl)
    split
    · split
      · rename_i q hfind
        have hq : q ∈ hidden_cells b := by
          have h := List.find?_some hfind
          exact of_decide_eq_true h
        obtain ⟨hb4, hh⟩ := mem_hidden_cells.mp hq
        exact some_branch_pack ActKind.reveal hh (mem_gridCells.mpr hb4)
      · have hlen : 0 < (hidden_cells b).length := List.length_pos.mpr hne
        have hmem : (hidden_cells b).getD (k % (hidden_cells b).length) (0, 0)
            ∈ hidden_cells b :=
          getD_mem_of_lt _ _ _ (Nat.mod_lt _ hlen)
        obtain ⟨hb4, hh⟩ := mem_hidden_cells.mp hmem
        exact some_branch_pack ActKind.reveal hh (mem_gridCells.mpr hb4)
    · split
      · rename_i p hp
        have hmem : p ∈ hidden_cells b := by
          cases hhc : hidden_cells b with
          | nil => exact absurd hhc hne
          | cons hd tl =>
            obtain ⟨q, hq1, hq2⟩ := guess_fold_mem b hd tl
            rw [hhc] at hp
            rw [hp] at hq1
            have hpq : p = q := Option.some.inj hq1
            rw [hpq]
            exact hq2
        obtain ⟨hb4, hh⟩ := mem_hidden_cells.mp hmem
        exact some_branch_pack ActKind.reveal hh (mem_gridCells.mpr hb4)
      · rename_i hnone
        cases hhc : hidden_cells b with
        | nil => exact absurd hhc hne
        | cons hd tl =>
          obtain ⟨q, hq1, -⟩ := guess_fold_mem b hd tl
          rw [hhc] at hnone
          rw [hnone] at hq1
          exact absurd hq1 (by simp)

/-! ### Concrete boards and traces used by the claim theorems -/

/-- A 3×3 game with two mines at (2,0) and (2,2) (a valid draw for a first
click at (0,0), whose excluded zone is the top-left 2×2 block). -/
def c1sample : Finset (Int × Int) := {(2, 0), (2, 2)}

/-- First click at (0,0), then reveal the mine at (2,0) directly. -/
def c1trace : List Op := [Op.reveal c1sample 0 0, Op.reveal ∅ 2 0]

/-- First click at (0,0), flag the mine at (2,0), then reveal it: the reveal
of the flagged mine is a silent no-op. -/
def c2trace : List Op := [Op.reveal c1sample 0 0, Op.flag 2 0, Op.reveal ∅ 2 0]

/-- A 1×3 board of zero-valued cells whose middle cell is Flagged. -/
def c3board : Board :=
  { rows := 1
    cols := 3
    num_mines := 1
    board := fun _ => 0
    cell_states := fun p => if p = (0, 1) then CellState.FLAGGED else CellState.HIDDEN
    mines := ∅
    game_state := GameState.PLAYING
    flags_placed := 1
    cells_revealed := 0
    first_click := false }

/-- A 1×6 board of Hidden zero-valued cells with no mines. -/
def rowBoard : Board :=
  { rows := 1
    cols := 6
    num_mines := 0
    board := fun _ => 0
    cell_states := fun _ => CellState.HIDDEN
    mines := ∅
    game_state := GameState.PLAYING
    flags_placed := 0
    cells_revealed := 0
    first_click := false }

/-- A 1×2 board with a Hidden mine at (0,1). -/
def c4mboard : Board :=
  { rows := 1
    cols := 2
    num_mines := 1
    board := fun _ => 0
    cell_states := fun _ => CellState.HIDDEN
    mines := {(0, 1)}
    game_state := GameState.PLAYING
    flags_placed := 0
    cells_revealed := 0
    first_click := false }

/-- A finished (Won) 3×3 board. -/
def c9board : Board := { initBoard 3 3 1 with game_state := GameState.WON }

/-- A 2×2 board whose top-left cell is Revealed with value 3: its three
Hidden neighbors are certain mines. -/
def c6board : Board :=
  { rows := 2
    cols := 2
    num_mines := 3
    board := fun p => if p = (0, 0) then 3 else 0
    cell_states := fun p => if p = (0, 0) then CellState.REVEALED else CellState.HIDDEN
    mines := {(0, 1), (1, 0), (1, 1)}
    game_state := GameState.PLAYING
    flags_placed := 0
    cells_revealed := 1
    first_click := false }

/-- A 2×2 board whose top-left cell is Revealed with value 0: its three
Hidden neighbors are certain safe. -/
def c6sboard : Board :=
  { rows := 2
    cols := 2
    num_mines := 1
    board := fun _ => 0
    cell_states := fun p => if p = (0, 0) then CellState.REVEALED else CellState.HIDDEN
    mines := ∅
    game_state := GameState.PLAYING
    flags_placed := 0
    cells_revealed := 1
    first_click := false }

/-- A 2×4 board with a Revealed pair on the top wall reading 2 then 1 in
increasing column order (i.e. a 1-2 pair traversed right to left). -/
def c7board : Board :=
  { rows := 2
    cols := 4
    num_mines := 3
    board := fun p => if p = (0, 1) then 2 else if p = (0, 2) then 1 else 0
    cell_states := fun p =>
      if p = (0, 1) ∨ p = (0, 2) then CellState.REVEALED else CellState.HIDDEN
    mines := ∅
    game_state := GameState.PLAYING
    flags_placed := 0
    cells_revealed := 2
    first_click := false }

/-- A 2×4 board with a Revealed 1-2 pair (1 before 2) on the top wall. -/
def c7wboard : Board :=
  { rows := 2
    cols := 4
    num_mines := 3
    board := fun p => if p = (0, 1) then 1 else if p = (0, 2) then 2 else 0
    cell_states := fun p =>
      if p = (0, 1) ∨ p = (0, 2) then CellState.REVEALED else CellState.HIDDEN
    mines := ∅
    game_state := GameState.PLAYING
    flags_placed := 0
    cells_revealed := 2
    first_click := false }

theorem pyIndex_eq_some {n : Nat} {i : Int} (h1 : -(n : Int) ≤ i) (h2 : i < n) :
    pyIndex n i = some (if i < 0 then i + n else i) := by
  unfold pyIndex
  by_cases h : i < 0
  · rw [if_neg (by omega), if_pos (by omega), if_pos h]
  · rw [if_pos (by omega), if_neg h]

theorem pyIndex_eq_none {n : Nat} {i : Int} (h : (n : Int) ≤ i) : pyIndex n i = none := by
  unfold pyIndex
  rw [if_neg (by omega), if_neg (by omega)]

/-- Membership characterization of the mines half of the 1-2 check. -/
theorem mem_c12_mines_iff {b : Board} {p : Int × Int} :
    p ∈ (check_1_2_pattern b).1 ↔
      (∃ row ∈ intRange b.rows, ∃ col ∈ intRange (b.cols - 1), p ∈ h12_mines b row col)
      ∨ (∃ row ∈ intRange (b.rows - 1), ∃ col ∈ intRange b.cols,
          p ∈ v12_mines b row col) := by
  unfold check_1_2_pattern
  dsimp only
  rw [List.mem_dedup]
  simp only [List.mem_append, List.mem_flatMap]

/-- Membership characterization of the safe half of the 1-2 check. -/
theorem mem_c12_safe_iff {b : Board} {p : Int × Int} :
    p ∈ (check_1_2_pattern b).2 ↔
      (∃ row ∈ intRange b.rows, ∃ col ∈ intRange (b.cols - 1), p ∈ h12_safe b row col)
      ∨ (∃ row ∈ intRange (b.rows - 1), ∃ col ∈ intRange b.cols,
          p ∈ v12_safe b row col) := by
  unfold check_1_2_pattern
  dsimp only
  rw [List.mem_dedup]
  simp only [List.mem_append, List.mem_flatMap]

/-- The claim's notion of flood reachability: a chain of in-bounds,
non-mine, 0-valued cells, with no condition on the visibility state of the
chain's cells. -/
inductive ZeroReach (b : Board) (s : Int × Int) : Int × Int → Prop where
  | base : ZeroReach b s s
  | step {p q : Int × Int} (hr : ZeroReach b s p)
      (hin : p ∈ gridCells b.rows b.cols) (hm : p ∉ b.mines) (h0 : b.board p = 0)
      (hq : q ∈ neighborsList b.rows b.cols p.1 p.2) : ZeroReach b s q

/-! ### Claim theorems -/

/-- C1, counterexample: after the admissible trace `c1trace` (first click at
(0,0), then a reveal that directly hits the mine at (2,0)), the counter
`cells_revealed` does not equal the number of Revealed cells: the losing
reveal marks the mine Revealed without incrementing the counter. -/
theorem C1_counterexample :
    opsOkB (initBoard 3 3 2) c1trace = true
    ∧ (runOps (initBoard 3 3 2) c1trace).cells_revealed
        ≠ (revealedCount (runOps (initBoard 3 3 2) c1trace) : Int) := by
  constructor
  · decide
  · decide

/-- C1 (amended): in every state reachable by an admissible trace of reveal
and flag operations, `flags_placed` equals the number of Flagged cells, and
`cells_revealed` equals the number of Revealed cells in every non-Lost
state; in a Lost state the number of Revealed cells exceeds the counter by
exactly one (the directly-revealed mine is not counted). -/
theorem C1_counters (rows cols m : Nat) (ops : List Op)
    (hok : opsOkB (initBoard rows cols m) ops = true) :
    (runOps (initBoard rows cols m) ops).flags_placed
      = (flaggedCount (runOps (initBoard rows cols m) ops) : Int)
    ∧ ((runOps (initBoard rows cols m) ops).game_state ≠ GameState.LOST →
        (runOps (initBoard rows cols m) ops).cells_revealed
          = (revealedCount (runOps (initBoard rows cols m) ops) : Int))
    ∧ ((runOps (initBoard rows cols m) ops).game_state = GameState.LOST →
        (runOps (initBoard rows cols m) ops).cells_revealed + 1
          = (revealedCount (runOps (initBoard rows cols m) ops) : Int)) := by
  obtain ⟨hInv, -, -, -, -, -⟩ :=
    runOps_spec ops (initBoard rows cols m) (initBoard_InvCore rows cols m) hok
  have hsplit := revealedCount_split (runOps (initBoard rows cols m) ops)
  have h1 := hInv.cr_eq
  have h2 := hInv.rm_eq
  refine ⟨hInv.fp_eq, ?_, ?_⟩
  · intro h; rw [if_neg h] at h2; omega
  · intro h; rw [if_pos h] at h2; omega

/-- Witness for C1 (amended) at a concrete admissible trace. -/
theorem C1_counters_witness :
    opsOkB (initBoard 3 3 2) c1trace = true
    ∧ (runOps (initBoard 3 3 2) c1trace).cells_revealed + 1
      = (revealedCount (runOps (initBoard 3 3 2) c1trace) : Int) :=
  ⟨by decide, (C1_counters 3 3 2 c1trace (by decide)).2.2 (by decide)⟩

/-- C2, counterexample: along the admissible trace `c2trace` a mine cell
(the flagged mine at (2,0)) is the direct target of a reveal call, yet the
board does not enter the Lost state — the literal "Lost iff a mine was ever
the direct target of a reveal" fails for flagged mines. -/
theorem C2_counterexample :
    opsOkB (initBoard 3 3 2) c2trace = true
    ∧ everMineTargetB (initBoard 3 3 2) c2trace = true
    ∧ (runOps (initBoard 3 3 2) c2trace).game_state ≠ GameState.LOST := by
  refine ⟨by decide, by decide, by decide⟩

/-- C2 (amended): for every board with `num_mines < rows*cols` and every
admissible trace, the final state is Won iff `cells_revealed` equals
`rows*cols - num_mines`, and is Lost iff some reveal of the trace directly
targeted a currently-Hidden mine in a non-terminal state; such a reveal
marks the mine Revealed, sets the state to Lost and returns `false`. -/
theorem C2_win_loss (rows cols m : Nat) (hm : m < rows * cols) (ops : List Op)
    (hok : opsOkB (initBoard rows cols m) ops = true) :
    ((runOps (initBoard rows cols m) ops).game_state = GameState.WON ↔
      (runOps (initBoard rows cols m) ops).cells_revealed
        = (rows : Int) * (cols : Int) - (m : Int))
    ∧ ((runOps (initBoard rows cols m) ops).game_state = GameState.LOST ↔
        everLosingHitB (initBoard rows cols m) ops = true)
    ∧ (∀ (s : Finset (Int × Int)) (row col : Int),
        losingHitB (runOps (initBoard rows cols m) ops) (Op.reveal s row col) = true →
          (reveal_cell s (runOps (initBoard rows cols m) ops) row col).2 = false
          ∧ (reveal_cell s (runOps (initBoard rows cols m) ops) row col).1.cell_states
              (row, col) = CellState.REVEALED
          ∧ (reveal_cell s (runOps (initBoard rows cols m) ops) row col).1.game_state
              = GameState.LOST) := by
  obtain ⟨hInv, hlost, hr, hc, hn, hwin⟩ :=
    runOps_spec ops (initBoard rows cols m) (initBoard_InvCore rows cols m) hok
  have hW : WinInv (runOps (initBoard rows cols m) ops) :=
    hwin (initBoard_WinInv rows cols m hm)
  have e1 : (initBoard rows cols m).rows = rows := rfl
  have e2 : (initBoard rows cols m).cols = cols := rfl
  have e3 : (initBoard rows cols m).num_mines = m := rfl
  refine ⟨?_, ?_, ?_⟩
  · unfold WinInv at hW
    rw [hr, hc, hn, e1, e2, e3] at hW
    constructor
    · intro h; rw [if_pos h] at hW; exact hW
    · intro h
      by_contra hne
      rw [if_neg hne] at hW
      omega
  · rw [hlost]
    have : (initBoard rows cols m).game_state = GameState.READY := rfl
    simp [this]
  · intro s row col hhit
    simp only [losingHitB, decide_eq_true_eq] at hhit
    obtain ⟨h1, h2, h3, h4⟩ := hhit
    have hfc : (runOps (initBoard rows cols m) ops).first_click = false := by
      cases hfc : (runOps (initBoard rows cols m) ops).first_click
      · rfl
      · rw [hInv.fc_mines hfc] at h3; exact absurd h3 (Finset.not_mem_empty _)
    have hterm : ¬((runOps (initBoard rows cols m) ops).game_state = GameState.WON
        ∨ (runOps (initBoard rows cols m) ops).game_state = GameState.LOST) := by
      rintro (h | h)
      · exact h1 h
      · exact h2 h
    have hin : inBounds (runOps (initBoard rows cols m) ops).rows
        (runOps (initBoard rows cols m) ops).cols row col :=
      mem_gridCells.mp (hInv.mines_sub h3)
    rw [reveal_cell_nfc hterm hin hfc]
    obtain ⟨-, hiff, -, -, -, -, hret⟩ := core_spec hInv hterm hfc
    obtain ⟨hfalse, hrev⟩ := hret ⟨h3, h4⟩
    exact ⟨hfalse, hrev, hiff.mpr ⟨h3, h4⟩⟩

/-- Witness for C2 (amended): on the concrete trace `c1trace` the final
state is Lost, obtained through the Lost-iff direction of the theorem. -/
theorem C2_win_loss_witness :
    (runOps (initBoard 3 3 2) c1trace).game_state = GameState.LOST :=
  (C2_win_loss 3 3 2 (by decide) c1trace (by decide)).2.1.mpr (by decide)

/-- C3, counterexample: on `c3board` (a 1×3 row of zero-valued non-mine
cells whose middle cell is Flagged), the cell (0,2) is reachable from the
revealed cell (0,0) through a chain of 0-valued cells, yet the flood leaves
it Hidden, and the Flagged chain cell (0,1) stays Flagged: completeness as
stated (for every cell reachable through a chain of 0-valued cells) fails. -/
theorem C3_counterexample :
    c3board.cell_states (0, 0) = CellState.HIDDEN
    ∧ (0, 0) ∉ c3board.mines
    ∧ c3board.board (0, 0) = 0
    ∧ ZeroReach c3board (0, 0) (0, 2)
    ∧ (flood_reveal c3board 0 0).cell_states (0, 2) ≠ CellState.REVEALED
    ∧ (flood_reveal c3board 0 0).cell_states (0, 1) = CellState.FLAGGED := by
  refine ⟨by decide, by decide, rfl, ?_, by decide, by decide⟩
  have h1 : ZeroReach c3board (0, 0) (0, 1) :=
    ZeroReach.step ZeroReach.base (by decide) (by decide) rfl (by decide)
  exact ZeroReach.step h1 (by decide) (by decide) rfl (by decide)

/-- C3 (amended): flood reveal is complete for the Hidden part of the
region: every cell reachable from the target through a chain of Hidden,
non-mine, 0-valued cells (the numeric border of the region included) that is
itself Hidden and not a mine becomes Revealed; cells that are not Hidden
(already Revealed or Flagged) are never changed; and every cell the flood
changes is such a reachable Hidden non-mine cell, newly Revealed — in
particular non-zero border cells are revealed but the flood never expands
beyond them. -/
theorem C3_flood (b : Board) (row col : Int)
    (hin : (row, col) ∈ gridCells b.rows b.cols)
    (hH : b.cell_states (row, col) = CellState.HIDDEN)
    (hm : (row, col) ∉ b.mines) :
    (∀ p : Int × Int, FloodReach b (row, col) p → p ∉ b.mines →
      b.cell_states p = CellState.HIDDEN →
      (flood_reveal b row col).cell_states p = CellState.REVEALED)
    ∧ (∀ p : Int × Int, b.cell_states p ≠ CellState.HIDDEN →
        (flood_reveal b row col).cell_states p = b.cell_states p)
    ∧ (∀ p : Int × Int, (flood_reveal b row col).cell_states p ≠ b.cell_states p →
        FloodReach b (row, col) p ∧ b.cell_states p = CellState.HIDDEN
          ∧ (flood_reveal b row col).cell_states p = CellState.REVEALED
          ∧ p ∉ b.mines) := by
  obtain ⟨hA, hB, hC⟩ := flood_reveal_spec b row col
  have hle := flood_reveal_floodLe b row col
  refine ⟨?_, ?_, ?_⟩
  · intro p hreach
    induction hreach with
    | base =>
      intro _ _
      exact hA (mem_gridCells.mp hin) hH hm
    | @step pp qq hr hpin hpH hpm hp0 hq IH =>
      intro hqm hqH
      have hprev := IH hpm hpH
      have hcl : (flood_reveal b row col).cell_states qq ≠ CellState.HIDDEN :=
        hB pp hpin hpH hprev hp0 qq hq hqm
      rcases hle.states qq with h | h
      · rw [h] at hcl; exact absurd hqH hcl
      · exact h.2.1
  · intro p hp
    exact hle.state_of_not_hidden hp
  · intro p hp
    have hreach := hC p hp
    rcases hle.states p with h | h
    · exact absurd h hp
    · exact ⟨hreach, h.1, h.2.1, h.2.2.2⟩

/-- Witness for C3 (amended): on a 1×6 row of Hidden zeros, the far cell
(0,5) is flood-reachable from (0,0) and ends up Revealed. -/
theorem C3_flood_witness :
    FloodReach rowBoard (0, 0) (0, 5)
    ∧ (flood_reveal rowBoard 0 0).cell_states (0, 5) = CellState.REVEALED := by
  have h01 : FloodReach rowBoard (0, 0) (0, 1) :=
    FloodReach.step FloodReach.base (by decide) rfl (by decide) rfl (by decide)
  have h02 : FloodReach rowBoard (0, 0) (0, 2) :=
    FloodReach.step h01 (by decide) rfl (by decide) rfl (by decide)
  have h03 : FloodReach rowBoard (0, 0) (0, 3) :=
    FloodReach.step h02 (by decide) rfl (by decide) rfl (by decide)
  have h04 : FloodReach rowBoard (0, 0) (0, 4) :=
    FloodReach.step h03 (by decide) rfl (by decide) rfl (by decide)
  have h05 : FloodReach rowBoard (0, 0) (0, 5) :=
    FloodReach.step h04 (by decide) rfl (by decide) rfl (by decide)
  exact ⟨h05, (C3_flood rowBoard 0 0 (by decide) rfl (by decide)).1
    (0, 5) h05 (by decide) rfl⟩

/-- C4, counterexample to the worklist conjunct: the embedded flood fill is
the source's self-recursion with an explicit call-depth budget, and its
result depends on that depth: with depth budget 4 the reveal of (0,0) on a
1×6 zero row leaves (0,5) Hidden, while depth 7 reveals it.  The recursion
depth the code needs grows with the size of the zero region, i.e. the
implementation is depth-unbounded recursion, not an explicit
worklist/stack. -/
theorem C4_counterexample :
    (reveal_recursive 4 rowBoard 0 0).cell_states (0, 5) = CellState.HIDDEN
    ∧ (reveal_recursive 7 rowBoard 0 0).cell_states (0, 5) = CellState.REVEALED := by
  constructor
  · decide
  · decide

/-- C4 (amended): for every board, the flood fill terminates (it is a
structurally bounded traversal), never touches a cell outside the board
bounds, never reveals a mine, changes each cell at most once (a cell either
keeps its state or goes from Hidden to Revealed exactly once, and
`cells_revealed` advances in lockstep with the number of newly Revealed
cells), and reveals at most `rows*cols` cells; it is, however, implemented
as self-recursion whose depth grows with the region, not as an explicit
worklist. -/
theorem C4_flood_bounds (b : Board) (row col : Int) :
    (∀ p : Int × Int, p ∉ gridCells b.rows b.cols →
      (flood_reveal b row col).cell_states p = b.cell_states p)
    ∧ (∀ p : Int × Int, p ∈ b.mines →
        (flood_reveal b row col).cell_states p = b.cell_states p)
    ∧ (∀ p : Int × Int, (flood_reveal b row col).cell_states p = b.cell_states p
        ∨ (b.cell_states p = CellState.HIDDEN
          ∧ (flood_reveal b row col).cell_states p = CellState.REVEALED))
    ∧ ((flood_reveal b row col).cells_revealed - b.cells_revealed
        = (revealedCount (flood_reveal b row col) : Int) - (revealedCount b : Int))
    ∧ revealedCount (flood_reveal b row col) ≤ b.rows * b.cols := by
  have hle := flood_reveal_floodLe b row col
  refine ⟨?_, ?_, ?_, hle.cnt, ?_⟩
  · intro p hp
    rcases hle.states p with h | h
    · exact h
    · exact absurd h.2.2.1 hp
  · intro p hp
    rcases hle.states p with h | h
    · exact h
    · exact absurd hp h.2.2.2
  · intro p
    rcases hle.states p with h | h
    · exact Or.inl h
    · exact Or.inr ⟨h.1, h.2.1⟩
  · have h := stateCount_le (flood_reveal b row col) CellState.REVEALED
    rw [hle.rows_eq, hle.cols_eq] at h
    exact h

/-- Witness for C4 (amended): on a 1×2 board with a Hidden mine at (0,1),
the flood from (0,0) leaves both the mine and the out-of-bounds cell (0,5)
untouched. -/
theorem C4_flood_bounds_witness :
    (0, 1) ∈ c4mboard.mines
    ∧ (flood_reveal c4mboard 0 0).cell_states (0, 1) = c4mboard.cell_states (0, 1)
    ∧ (0, 5) ∉ gridCells c4mboard.rows c4mboard.cols
    ∧ (flood_reveal c4mboard 0 0).cell_states (0, 5) = c4mboard.cell_states (0, 5) :=
  ⟨by decide, (C4_flood_bounds c4mboard 0 0).2.1 (0, 1) (by decide), by decide,
    (C4_flood_bounds c4mboard 0 0).1 (0, 5) (by decide)⟩

/-- C5: after mine generation with an admissible draw of
`random.sample(available_cells, num_mines)`, the mine set has exactly
`num_mines` elements, is disjoint from the excluded zone (the first-clicked
cell and its neighbors), and every in-bounds non-mine cell's value equals
the number of mines among its 8-neighbors (stated through an explicit
adjacency predicate). -/
theorem C5_generation (b : Board) (row col : Int) (s : Finset (Int × Int))
    (hin : inBounds b.rows b.cols row col)
    (hsub : s ⊆ available_cells b.rows b.cols row col)
    (hcard : s.card = b.num_mines) :
    (generate_mines b row col s).mines.card = b.num_mines
    ∧ Disjoint (generate_mines b row col s).mines
        (excluded_cells b.rows b.cols row col)
    ∧ ∀ p : Int × Int, p ∈ gridCells b.rows b.cols →
        p ∉ (generate_mines b row col s).mines →
        (generate_mines b row col s).board p
          = ((s.filter fun q => ¬(q.1 = p.1 ∧ q.2 = p.2) ∧ q.1 - p.1 ≤ 1
              ∧ p.1 - q.1 ≤ 1 ∧ q.2 - p.2 ≤ 1 ∧ p.2 - q.2 ≤ 1).card : Int) := by
  refine ⟨hcard, ?_, ?_⟩
  · rw [Finset.disjoint_left]
    intro a ha hexc
    have h2 := hsub ha
    unfold available_cells at h2
    rw [Finset.mem_sdiff] at h2
    exact h2.2 hexc
  · intro p hpg hpm
    have hpm' : p ∉ s := hpm
    show (if p ∈ gridCells b.rows b.cols ∧ p ∉ s then
        ((count_adjacent_mines s b.rows b.cols p.1 p.2 : Nat) : Int)
      else b.board p) = _
    rw [if_pos ⟨hpg, hpm'⟩]
    congr 1
    unfold count_adjacent_mines
    congr 1
    ext q
    simp only [Finset.mem_filter, mem_get_neighbors]
    constructor
    · rintro ⟨hq, hqs⟩
      obtain ⟨u, v⟩ := q
      rw [mem_neighborsList] at hq
      exact ⟨hqs, by
        obtain ⟨-, hne, d1, d2, d3, d4⟩ := hq
        exact ⟨hne, d1, d2, d3, d4⟩⟩
    · rintro ⟨hqs, hne, d1, d2, d3, d4⟩
      obtain ⟨u, v⟩ := q
      refine ⟨?_, hqs⟩
      rw [mem_neighborsList]
      have hqg : (u, v) ∈ gridCells b.rows b.cols :=
        (hsub.trans (available_cells_sub _ _ _ _)) hqs
      exact ⟨mem_gridCells.mp hqg, hne, d1, d2, d3, d4⟩

/-- Witness for C5 at a concrete 3×3 board, first click (0,0), sample
{(2,0),(2,2)}. -/
theorem C5_generation_witness :
    (generate_mines (initBoard 3 3 2) 0 0 c1sample).mines.card = 2
    ∧ Disjoint (generate_mines (initBoard 3 3 2) 0 0 c1sample).mines
        (excluded_cells 3 3 0 0)
    ∧ (generate_mines (initBoard 3 3 2) 0 0 c1sample).board (1, 1) = 2 := by
  have h := C5_generation (initBoard 3 3 2) 0 0 c1sample (by decide) (by decide)
    (by decide)
  refine ⟨h.1, h.2.1, ?_⟩
  have h2 := h.2.2 (1, 1) (by decide) (by decide)
  rw [h2]
  decide

/-- C9, counterexample: on a Won board, a reveal at the out-of-bounds
coordinates (5,5) returns `false`, not `true` — the terminal-state check
runs before the bounds check. -/
theorem C9_counterexample :
    ¬ inBounds c9board.rows c9board.cols 5 5
    ∧ (reveal_cell ∅ c9board 5 5).2 = false := by
  constructor
  · decide
  · decide

/-- C9 (amended): out-of-bounds coordinates are a silent no-op on both the
reveal and flag paths, with the board unchanged; the reveal returns `true`
in non-terminal states but `false` in terminal (Won/Lost) states, because
the terminal-state guard precedes the bounds check; for any coordinates,
in-bounds included, a reveal in a terminal state is a no-op returning
`false` and a flag toggle is a no-op. -/
theorem C9_noop (b : Board) (s : Finset (Int × Int)) (row col : Int) :
    (¬ inBounds b.rows b.cols row col → b.game_state ≠ GameState.WON →
      b.game_state ≠ GameState.LOST → reveal_cell s b row col = (b, true))
    ∧ ((b.game_state = GameState.WON ∨ b.game_state = GameState.LOST) →
        reveal_cell s b row col = (b, false) ∧ toggle_flag b row col = b)
    ∧ (¬ inBounds b.rows b.cols row col → toggle_flag b row col = b) := by
  refine ⟨?_, ?_, ?_⟩
  · intro hoob hW hL
    exact reveal_cell_oob (by rintro (h | h); exacts [hW h, hL h]) hoob
  · intro hterm
    exact ⟨reveal_cell_terminal hterm, toggle_flag_terminal hterm⟩
  · intro hoob
    by_cases hterm : b.game_state = GameState.WON ∨ b.game_state = GameState.LOST
    · exact toggle_flag_terminal hterm
    · exact toggle_flag_oob hterm hoob

/-- Witness for C9 (amended) at concrete out-of-bounds coordinates on a
fresh board and a terminal board. -/
theorem C9_noop_witness :
    reveal_cell ∅ (initBoard 2 2 1) 5 5 = (initBoard 2 2 1, true)
    ∧ toggle_flag (initBoard 2 2 1) 5 5 = initBoard 2 2 1
    ∧ reveal_cell ∅ c9board 0 0 = (c9board, false) := by
  refine ⟨(C9_noop (initBoard 2 2 1) ∅ 5 5).1 (by decide) (by decide) (by decide),
    (C9_noop (initBoard 2 2 1) ∅ 5 5).2.2 (by decide),
    ((C9_noop c9board ∅ 0 0).2.1 (by decide)).1⟩

/-- C6: the constraint pass.  The effective value of a revealed cell is its
stored value minus its Flagged neighbors; when a revealed cell has exactly
as many Hidden neighbors as its (positive) effective value, every one of
them is reported as a certain mine; when its effective value is 0 and it
has Hidden neighbors, every один of them is reported as certain safe; no
other cell is reported, and both reported lists are duplicate-free. -/
theorem C6_constraint_pass (b : Board) :
    (∀ row col : Int, inBounds b.rows b.cols row col → is_revealed b row col = true →
      get_effective_value b row col
        = b.board (row, col)
          - (((neighborsList b.rows b.cols row col).filter
              fun q => is_flagged b q.1 q.2).length : Int))
    ∧ (∀ row col : Int, 0 ≤ row → row < b.rows → 0 ≤ col → col < b.cols →
        is_revealed b row col = true →
        ((hidden_neighbors b row col).length : Int) = get_effective_value b row col →
        0 < get_effective_value b row col →
        ∀ p ∈ hidden_neighbors b row col, p ∈ find_certain_mines b)
    ∧ (∀ p ∈ find_certain_mines b, ∃ row col : Int,
        (0 ≤ row ∧ row < b.rows ∧ 0 ≤ col ∧ col < b.cols)
        ∧ is_revealed b row col = true
        ∧ ((hidden_neighbors b row col).length : Int) = get_effective_value b row col
        ∧ 0 < get_effective_value b row col ∧ p ∈ hidden_neighbors b row col)
    ∧ (∀ row col : Int, 0 ≤ row → row < b.rows → 0 ≤ col → col < b.cols →
        is_revealed b row col = true → get_effective_value b row col = 0 →
        hidden_neighbors b row col ≠ [] →
        ∀ p ∈ hidden_neighbors b row col, p ∈ find_certain_safe b)
    ∧ (∀ p ∈ find_certain_safe b, ∃ row col : Int,
        (0 ≤ row ∧ row < b.rows ∧ 0 ≤ col ∧ col < b.cols)
        ∧ is_revealed b row col = true ∧ get_effective_value b row col = 0
        ∧ hidden_neighbors b row col ≠ [] ∧ p ∈ hidden_neighbors b row col)
    ∧ (find_certain_mines b).Nodup ∧ (find_certain_safe b).Nodup := by
  refine ⟨?_, ?_, ?_, ?_, ?_, List.nodup_dedup _, List.nodup_dedup _⟩
  · intro row col hin hrev
    unfold get_effective_value
    rw [if_pos hrev, get_cell_value_inBounds hin]
    rfl
  · intro row col h1 h2 h3 h4 hrev hlen hpos p hp
    exact mem_find_certain_mines.mpr ⟨row, col, ⟨h1, h2, h3, h4⟩, hrev, hlen, hpos, hp⟩
  · intro p hp
    exact mem_find_certain_mines.mp hp
  · intro row col h1 h2 h3 h4 hrev heff hne p hp
    exact mem_find_certain_safe.mpr ⟨row, col, ⟨h1, h2, h3, h4⟩, hrev, heff, hne, hp⟩
  · intro p hp
    exact mem_find_certain_safe.mp hp

/-- Witness for C6 at concrete boards: on `c6board` the revealed 3 makes
its three Hidden neighbors certain mines; on `c6sboard` the revealed 0
makes them certain safe. -/
theorem C6_constraint_pass_witness :
    (1, 1) ∈ find_certain_mines c6board ∧ (1, 1) ∈ find_certain_safe c6sboard :=
  ⟨(C6_constraint_pass c6board).2.1 0 0 (by decide) (by decide) (by decide) (by decide)
      (by decide) (by decide) (by decide) (1, 1) (by decide),
   (C6_constraint_pass c6sboard).2.2.2.1 0 0 (by decide) (by decide) (by decide)
      (by decide) (by decide) (by decide) (by decide) (1, 1) (by decide)⟩

/-- C7, counterexample: on `c7board` the adjacent revealed pair on the top
wall has effective values 1 (at column 2) and 2 (at column 1) — a 1-2 pair
in the right-to-left traversal direction — with Hidden cells on both far
sides, yet the 1-2 check reports nothing at all: only the direction with
the 1 at the smaller coordinate is implemented. -/
theorem C7_counterexample :
    is_revealed c7board 0 1 = true ∧ is_revealed c7board 0 2 = true
    ∧ get_effective_value c7board 0 2 = 1 ∧ get_effective_value c7board 0 1 = 2
    ∧ is_hidden c7board 0 3 = true ∧ is_hidden c7board 0 0 = true
    ∧ check_1_2_pattern c7board = ([], []) := by
  refine ⟨by decide, by decide, by decide, by decide, by decide, by decide, by decide⟩

/-- C7 (amended): the 1-2 wall pattern fires only with the 1 at the smaller
coordinate — left-to-right horizontally, top-to-bottom vertically.  For
every such pair of adjacent Revealed cells on a top/bottom wall
(respectively left/right wall) with effective values 1 then 2, the Hidden
cell on the far side of the 1 (if any) is reported safe and the Hidden cell
on the far side of the 2 (if any) is reported a mine.  The mirrored
traversal direction (2 before 1) is not detected (see the counterexample). -/
theorem C7_one_two_pattern (b : Board) :
    (∀ row col : Int, 0 ≤ row → row < b.rows → 0 ≤ col → col + 1 < b.cols →
      is_revealed b row col = true → is_revealed b row (col + 1) = true →
      get_effective_value b row col = 1 → get_effective_value b row (col + 1) = 2 →
      (row = 0 ∨ row = (b.rows : Int) - 1) →
      (0 < col → is_hidden b row (col - 1) = true →
        (row, col - 1) ∈ (check_1_2_pattern b).2)
      ∧ (col + 2 < (b.cols : Int) → is_hidden b row (col + 2) = true →
        (row, col + 2) ∈ (check_1_2_pattern b).1))
    ∧ (∀ row col : Int, 0 ≤ row → row + 1 < b.rows → 0 ≤ col → col < b.cols →
      is_revealed b row col = true → is_revealed b (row + 1) col = true →
      get_effective_value b row col = 1 → get_effective_value b (row + 1) col = 2 →
      (col = 0 ∨ col = (b.cols : Int) - 1) →
      (0 < row → is_hidden b (row - 1) col = true →
        (row - 1, col) ∈ (check_1_2_pattern b).2)
      ∧ (row + 2 < (b.rows : Int) → is_hidden b (row + 2) col = true →
        (row + 2, col) ∈ (check_1_2_pattern b).1)) := by
  constructor
  · intro row col h1 h2 h3 h4 hrev1 hrev2 heff1 heff2 hwall
    constructor
    · intro hc hhid
      rw [mem_c12_safe_iff]
      left
      refine ⟨row, mem_intRange.mpr ⟨h1, h2⟩, col, mem_intRange.mpr ⟨h3, by omega⟩, ?_⟩
      unfold h12_safe
      rw [if_pos ⟨hrev1, hrev2⟩, List.mem_append]
      rcases hwall with h0 | hlast
      · right
        rw [mem_ite_list]
        exact ⟨⟨heff1, heff2, h0, hc, hhid⟩, List.mem_singleton.mpr rfl⟩
      · left
        rw [mem_ite_list]
        exact ⟨⟨heff1, heff2, hlast, hc, hhid⟩, List.mem_singleton.mpr rfl⟩
    · intro hc hhid
      rw [mem_c12_mines_iff]
      left
      refine ⟨row, mem_intRange.mpr ⟨h1, h2⟩, col, mem_intRange.mpr ⟨h3, by omega⟩, ?_⟩
      unfold h12_mines
      rw [if_pos ⟨hrev1, hrev2⟩, List.mem_append]
      rcases hwall with h0 | hlast
      · right
        rw [mem_ite_list]
        exact ⟨⟨heff1, heff2, h0, hc, hhid⟩, List.mem_singleton.mpr rfl⟩
      · left
        rw [mem_ite_list]
        exact ⟨⟨heff1, heff2, hlast, hc, hhid⟩, List.mem_singleton.mpr rfl⟩
  · intro row col h1 h2 h3 h4 hrev1 hrev2 heff1 heff2 hwall
    constructor
    · intro hr hhid
      rw [mem_c12_safe_iff]
      right
      refine ⟨row, mem_intRange.mpr ⟨h1, by omega⟩, col, mem_intRange.mpr ⟨h3, h4⟩, ?_⟩
      unfold v12_safe
      rw [if_pos ⟨hrev1, hrev2⟩, List.mem_append]
      rcases hwall with h0 | hlast
      · left
        rw [mem_ite_list]
        exact ⟨⟨heff1, heff2, h0, hr, hhid⟩, List.mem_singleton.mpr rfl⟩
      · right
        rw [mem_ite_list]
        exact ⟨⟨heff1, heff2, hlast, hr, hhid⟩, List.mem_singleton.mpr rfl⟩
    · intro hr hhid
      rw [mem_c12_mines_iff]
      right
      refine ⟨row, mem_intRange.mpr ⟨h1, by omega⟩, col, mem_intRange.mpr ⟨h3, h4⟩, ?_⟩
      unfold v12_mines
      rw [if_pos ⟨hrev1, hrev2⟩, List.mem_append]
      rcases hwall with h0 | hlast
      · left
        rw [mem_ite_list]
        exact ⟨⟨heff1, heff2, h0, hr, hhid⟩, List.mem_singleton.mpr rfl⟩
      · right
        rw [mem_ite_list]
        exact ⟨⟨heff1, heff2, hlast, hr, hhid⟩, List.mem_singleton.mpr rfl⟩

/-- Witness for C7 (amended) on `c7wboard`: the 1-2 pair at (0,1)-(0,2)
on the top wall reports (0,0) safe and (0,3) a mine. -/
theorem C7_one_two_pattern_witness :
    (0, 0) ∈ (check_1_2_pattern c7wboard).2
    ∧ (0, 3) ∈ (check_1_2_pattern c7wboard).1 := by
  have h := (C7_one_two_pattern c7wboard).1 0 1 (by decide) (by decide) (by decide)
    (by decide) (by decide) (by decide) (by decide) (by decide) (Or.inl rfl)
  exact ⟨h.1 (by decide) (by decide), h.2 (by decide) (by decide)⟩

/-- C8: the action selector.  Every action `choose_action` returns — from
the constraint pass, any of the pattern steps, or the guess fallback, and
whether tagged flag or reveal — targets a currently-Hidden cell, and it
returns no action exactly when no Hidden cell remains on the board.  The
argument `k` ranges over all possible draws of the `random.choice`
fallback. -/
theorem C8_action_selector (b : Board) (k : Nat) :
    (∀ (a : ActKind) (r c : Int), choose_action b k = some (a, r, c) →
      is_hidden b r c = true)
    ∧ (choose_action b k = none ↔ hidden_cells b = []) := by
  obtain ⟨g1, g2⟩ := guess_spec b k
  unfold choose_action
  split
  · rename_i p hfind
    have hph : is_hidden b p.1 p.2 = true := by
      have h := List.find?_some hfind; exact h
    have hpg : p ∈ gridCells b.rows b.cols := by
      obtain ⟨row, col, -, -, -, -, hp⟩ :=
        mem_find_certain_mines.mp (List.mem_of_find?_eq_some hfind)
      exact hidden_neighbors_inBounds hp
    exact some_branch_pack ActKind.flag hph hpg
  · split
    · rename_i p tl hsafe
      have hpm : p ∈ find_certain_safe b := by
        rw [hsafe]; exact List.mem_cons_self _ _
      obtain ⟨row, col, -, -, -, -, hp⟩ := mem_find_certain_safe.mp hpm
      exact some_branch_pack ActKind.reveal (hidden_neighbors_hidden hp)
        (hidden_neighbors_inBounds hp)
    · split
      · rename_i p hfind
        have hph : is_hidden b p.1 p.2 = true := by
          have h := List.find?_some hfind; exact h
        have hpg := (mem_check_1_2_1 (List.mem_of_find?_eq_some hfind)).2
        exact some_branch_pack ActKind.flag hph hpg
      · split
        · rename_i p hfind
          have hph : is_hidden b p.1 p.2 = true := by
            have h := List.find?_some hfind; exact h
          have hpg := (mem_check_1_2_mines (List.mem_of_find?_eq_some hfind)).2
          exact some_branch_pack ActKind.flag hph hpg
        · split
          · rename_i p tl hsafe2
            split
            · rename_i hph
              have hpg := (mem_check_1_2_safe
                (show p ∈ (check_1_2_pattern b).2 by
                  rw [hsafe2]; exact List.mem_cons_self _ _)).2
              exact some_branch_pack ActKind.reveal (by exact hph) hpg
            · split
              · rename_i q tl2 h11
                have hq := mem_check_1_1
                  (show q ∈ check_1_1_pattern b by
                    rw [h11]; exact List.mem_cons_self _ _)
                exact some_branch_pack ActKind.reveal hq.1 hq.2
              · exact ⟨g1, g2⟩
          · split
            · rename_i q tl2 h11
              have hq := mem_check_1_1
                (show q ∈ check_1_1_pattern b by
                  rw [h11]; exact List.mem_cons_self _ _)
              exact some_branch_pack ActKind.reveal hq.1 hq.2
            · exact ⟨g1, g2⟩

/-- Witness for C8 on a fresh all-Hidden 2×2 board: the selector falls back
to the corner guess, revealing (0,0), which is Hidden. -/
theorem C8_action_selector_witness :
    choose_action (initBoard 2 2 1) 0 = some (ActKind.reveal, 0, 0)
    ∧ is_hidden (initBoard 2 2 1) 0 0 = true :=
  ⟨by decide,
   (C8_action_selector (initBoard 2 2 1) 0).1 ActKind.reveal 0 0 (by decide)⟩

/-- C10: the read accessors.  `get_cell_state`/`get_cell_value` validate
nothing themselves: a coordinate component in `[-rows, 0)` (resp.
`[-cols, 0)`) silently reads the cell at the opposite edge, Python's
negative list indexing, while a component `≥ rows` (resp. `≥ cols`) raises
IndexError (modelled as `none`); `is_mine`, by contrast, is a plain set
membership test and returns `False` for every out-of-bounds coordinate,
since the mine set of any board reachable from a fresh one only ever holds
in-bounds cells. -/
theorem C10_accessors (b : Board) (row col : Int) :
    (-(b.rows : Int) ≤ row → row < b.rows → -(b.cols : Int) ≤ col → col < b.cols →
      get_cell_state b row col
        = some (b.cell_states
            (if row < 0 then row + b.rows else row,
             if col < 0 then col + b.cols else col))
      ∧ get_cell_value b row col
        = some (b.board
            (if row < 0 then row + b.rows else row,
             if col < 0 then col + b.cols else col)))
    ∧ ((b.rows : Int) ≤ row ∨ (b.cols : Int) ≤ col →
        get_cell_state b row col = none ∧ get_cell_value b row col = none)
    ∧ (b.mines ⊆ gridCells b.rows b.cols → ¬ inBounds b.rows b.cols row col →
        is_mine b row col = false)
    ∧ (∀ (rows cols m : Nat) (ops : List Op),
        opsOkB (initBoard rows cols m) ops = true →
        (runOps (initBoard rows cols m) ops).mines ⊆ gridCells rows cols) := by
  refine ⟨?_, ?_, ?_, ?_⟩
  · intro h1 h2 h3 h4
    constructor
    · unfold get_cell_state
      rw [pyIndex_eq_some h1 h2, pyIndex_eq_some h3 h4]
    · unfold get_cell_value
      rw [pyIndex_eq_some h1 h2, pyIndex_eq_some h3 h4]
  · intro h
    rcases h with h | h
    · constructor
      · unfold get_cell_state; rw [pyIndex_eq_none h]
      · unfold get_cell_value; rw [pyIndex_eq_none h]
    · cases hpy : pyIndex b.rows row with
      | none =>
        constructor
        · unfold get_cell_state; rw [hpy, pyIndex_eq_none h]
        · unfold get_cell_value; rw [hpy, pyIndex_eq_none h]
      | some i =>
        constructor
        · unfold get_cell_state; rw [hpy, pyIndex_eq_none h]
        · unfold get_cell_value; rw [hpy, pyIndex_eq_none h]
  · intro hsub hoob
    unfold is_mine
    exact decide_eq_false fun hmem => hoob (mem_gridCells.mp (hsub hmem))
  · intro rows cols m ops hok
    obtain ⟨hInv, -, hr, hc, -, -⟩ :=
      runOps_spec ops (initBoard rows cols m) (initBoard_InvCore rows cols m) hok
    have h := hInv.mines_sub
    rw [hr, hc] at h
    exact h

/-- Witness for C10 at concrete inputs: a negative index wraps to the
opposite edge (reading the Revealed corner of `c6board`), an index past the
end is an error, and `is_mine` is `False` out of bounds. -/
theorem C10_accessors_witness :
    get_cell_state c6board (-2) (-2)
      = some (c6board.cell_states
          (if (-2 : Int) < 0 then -2 + c6board.rows else -2,
           if (-2 : Int) < 0 then -2 + c6board.cols else -2))
    ∧ get_cell_state c6board (-2) (-2) = some CellState.REVEALED
    ∧ get_cell_state c6board 5 0 = none
    ∧ is_mine c4mboard 0 5 = false := by
  refine ⟨((C10_accessors c6board (-2) (-2)).1 (by decide) (by decide) (by decide)
      (by decide)).1, by decide, ?_, ?_⟩
  · exact ((C10_accessors c6board 5 0).2.1 (Or.inl (by decide))).1
  · exact (C10_accessors c4mboard 0 5).2.2.1 (by decide) (by decide)

end Minesweeper

